import Mathlib

/-!
# Verification of the dependency-graph and priority-scoring engine

A shallow embedding, in Lean 4, of the core analysis functions of the
repository (`lib/import_analysis.py` and the priority-scoring part of
`lib/gap_features.py`), together with theorems settling the frozen claims
about them.

Modelling conventions:

* Python strings are Lean `String`s; file paths are POSIX-style,
  root-relative strings (so `os.path.relpath(filepath, root_dir)` is the
  path itself, `os.sep` is `"/"`).
* Python `dict`s (which preserve insertion order) are association lists
  `List (α × β)`; assignment is `dictSet` (replace in place or append),
  `defaultdict(list)` appending is `dictAppend`, `defaultdict(set).add`
  is `dictAddToSet`.
* Python floats are modelled as exact rationals `ℚ`.  Every constant
  appearing in the code (`0.25`, `0.7`, ...) is exactly representable in
  the claims' comparisons, and no claim depends on binary rounding error.
* Reading / `ast.parse`-ing a file is fallible; a file is therefore a
  path together with an `Option` parse result (`none` models any
  `open`/`parse` exception) and an `Option` source text used by the
  `__main__`-guard check of `is_entry_point`.
* `ast.walk` of a module yields, among others, all `ast.Import` /
  `ast.ImportFrom` nodes in a fixed order; a parse result is modelled as
  that list of import statements (the only node kinds the code inspects).
* Python's stable sorts (`list.sort` / `sorted` with `reverse=True`) are
  modelled by a stable insertion sort `sortByDesc`; any two stable sorts
  by the same key agree, so this is faithful.
* Python set iteration order (the BFS adjacency sets) is unspecified;
  it is modelled as insertion order.  Distance values, membership of
  the distance map and the tightly-coupled conditions are independent
  of that order.
* `str.lower()` is modelled by ASCII lowercasing (module names and
  paths are ASCII).
-/

namespace RepoXray

/-! ## Small string and dict utilities -/

/-- Python `sub in s` on lists of characters. -/
def charInfix (needle : List Char) : List Char → Bool
  | [] => needle.isEmpty
  | c :: rest => needle.isPrefixOf (c :: rest) || charInfix needle rest

/-- Python substring test `sub in s`. -/
def strContains (s sub : String) : Bool :=
  charInfix sub.toList s.toList

/-- `os.path.basename` for POSIX paths. -/
def basename (p : String) : String :=
  (p.splitOn "/").getLastD p

/-- `os.path.dirname` for relative POSIX paths. -/
def dirname (p : String) : String :=
  let parts := p.splitOn "/"
  if parts.length ≤ 1 then "" else String.intercalate "/" parts.dropLast

/-- First dotted segment, Python `s.split(".")[0]`. -/
def firstSegment (s : String) : String :=
  (s.splitOn ".").headD s

/-- Last dotted segment, Python `s.split(".")[-1]`. -/
def lastSegment (s : String) : String :=
  (s.splitOn ".").getLastD s

/-- Python `min` of two strings (code-point lexicographic order). -/
def pymin (a b : String) : String := if b < a then b else a

/-- Python `max` of two strings. -/
def pymax (a b : String) : String := if a < b then b else a

/-- Ordered-dict assignment `d[k] = v`: replace in place, else append. -/
def dictSet {α β : Type} [DecidableEq α] : List (α × β) → α → β → List (α × β)
  | [], k, v => [(k, v)]
  | (k', v') :: rest, k, v =>
      if k' = k then (k, v) :: rest else (k', v') :: dictSet rest k v

/-- Dict lookup `d.get(k)`. -/
def dictGet? {α β : Type} [DecidableEq α] : List (α × β) → α → Option β
  | [], _ => none
  | p :: rest, k => if p.1 = k then some p.2 else dictGet? rest k

/-- In-place update of the value at a present key (no-op when absent). -/
def dictUpd {α β : Type} [DecidableEq α] : List (α × β) → α → (β → β) → List (α × β)
  | [], _, _ => []
  | (k', v') :: rest, k, f =>
      if k' = k then (k', f v') :: rest else (k', v') :: dictUpd rest k f

/-- `defaultdict(list)`: `d[k].append(v)`. -/
def dictAppend {α β : Type} [DecidableEq α] (l : List (α × List β)) (k : α) (v : β) :
    List (α × List β) :=
  if (dictGet? l k).isSome then dictUpd l k (fun vs => vs ++ [v]) else l ++ [(k, [v])]

/-- `defaultdict(set)`: `d[k].add(v)` (sets modelled as dup-free lists). -/
def dictAddToSet {α β : Type} [DecidableEq α] [DecidableEq β]
    (l : List (α × List β)) (k : α) (v : β) : List (α × List β) :=
  match dictGet? l k with
  | some vs => if v ∈ vs then l else dictUpd l k (fun vs => vs ++ [v])
  | none => l ++ [(k, [v])]

/-- Stable insertion of `x` into a descending list (largest key first);
ties keep `x` before later-inserted equal elements, which together with
`sortByDesc` below models Python's stable descending sort. -/
def insertDesc {α : Type} (key : α → ℚ) (x : α) : List α → List α
  | [] => [x]
  | y :: ys => if key y ≤ key x then x :: y :: ys else y :: insertDesc key x ys

/-- Python `sorted(l, key=key, reverse=True)` / `l.sort(key=key, reverse=True)`. -/
def sortByDesc {α : Type} (key : α → ℚ) (l : List α) : List α :=
  l.foldr (insertDesc key) []

/-! ## Import statements and `parse_imports_with_aliases` -/

/-- An `ast.alias` node: `name` optionally bound `as asname`. -/
structure PyImportAlias where
  name : String
  asname : Option String
deriving DecidableEq

/-- The import statements `ast.walk` yields: `import a, b as c` and
`from [.level][module] import n as m, ...`. -/
inductive PyStmt where
  | imp (names : List PyImportAlias)
  | impFrom (module : Option String) (level : Nat) (names : List PyImportAlias)
deriving DecidableEq

/-- A source file: a root-relative path, the parse result (`none` models
an `open`/`ast.parse` exception) and the raw text (`none` when unreadable),
used only by the `__main__`-guard check. -/
structure PyFile where
  path : String
  tree : Option (List PyStmt)
  text : Option String
deriving DecidableEq

/-- The record `parse_imports_with_aliases` returns. -/
structure ImportRecord where
  imports : List String
  aliases : List (String × String)
  from_imports : List (String × List String)
  relative_imports : List String
  all_modules : List String
deriving DecidableEq

def emptyImportRecord : ImportRecord :=
  { imports := [], aliases := [], from_imports := [], relative_imports := [],
    all_modules := [] }

/-- One step of the `ast.walk` loop in `parse_imports_with_aliases`. -/
def applyStmt (r : ImportRecord) : PyStmt → ImportRecord
  | .imp names =>
      names.foldl (fun r a =>
        let r := { r with imports := r.imports ++ [a.name],
                          all_modules := r.all_modules ++ [a.name] }
        match a.asname with
        | some an => { r with aliases := dictSet r.aliases an a.name }
        | none => r) r
  | .impFrom module level names =>
      let m := module.getD ""
      let r :=
        if level > 0 then
          { r with relative_imports :=
              r.relative_imports ++ [String.mk (List.replicate level '.') ++ m] }
        else
          { r with imports := r.imports ++ [m], all_modules := r.all_modules ++ [m] }
      names.foldl (fun r a =>
        let r := { r with from_imports := dictAppend r.from_imports m a.name }
        match a.asname with
        | some an =>
            let full := if m ≠ "" then m ++ "." ++ a.name else a.name
            { r with aliases := dictSet r.aliases an full }
        | none => r) r

/-- `parse_imports_with_aliases`: any read/parse failure (`none`) yields the
empty record; otherwise the statements are folded in walk order. -/
def parse_imports_with_aliases (tree : Option (List PyStmt)) : ImportRecord :=
  match tree with
  | none => emptyImportRecord
  | some stmts => stmts.foldl applyStmt emptyImportRecord

/-! ## Module path utilities -/

/-- `module_path_to_name` on the root-relative path. -/
def module_path_to_name (rel_path : String) : String :=
  let module := rel_path.replace "/" "."
  let module := if module.endsWith ".py" then module.dropRight 3 else module
  let module := if module.endsWith ".__init__" then module.dropRight 9 else module
  module

/-- `resolve_relative_import`. -/
def resolve_relative_import (importing_module relative_import : String) : String :=
  let level := (relative_import.toList.takeWhile (fun c => c = '.')).length
  let rel := String.mk (relative_import.toList.dropWhile (fun c => c = '.'))
  let parts := importing_module.splitOn "."
  if level > parts.length then rel
  else
    let base :=
      if level > 0 then String.intercalate "." (parts.take (parts.length - level))
      else importing_module
    if rel ≠ "" then (if base ≠ "" then base ++ "." ++ rel else rel) else base

/-! ## Dependency graph building (`build_import_graph`) -/

/-- Known external/stdlib packages excluded from external-dependency
reporting (the module-level constant of the same name). -/
def EXTERNAL_PACKAGES : List String :=
  ["os", "sys", "re", "json", "typing", "pathlib", "collections",
   "datetime", "asyncio", "logging", "argparse", "dataclasses",
   "abc", "enum", "functools", "itertools", "copy", "time",
   "math", "random", "hashlib", "base64", "io", "contextlib",
   "subprocess", "shutil", "tempfile", "glob", "fnmatch",
   "unittest", "traceback", "warnings", "inspect", "ast",
   "concurrent", "multiprocessing", "threading", "queue",
   "pytest", "numpy", "pandas", "requests", "pydantic", "fastapi",
   "flask", "django", "sqlalchemy", "redis", "boto3", "aiohttp",
   "click", "typer", "rich", "httpx", "uvicorn", "yaml", "toml"]

/-- An entry of the `modules` dict of `build_import_graph`. -/
structure ModuleInfo where
  file : String
  imports : List String
  imported_by : List String
deriving DecidableEq

/-- The canonical registry key of one file: path-derived name, leading
dots stripped, root package prepended when set and not already present. -/
def regKey (root_package : Option String) (f : PyFile) : String :=
  let module_name := module_path_to_name f.path
  let module_name := String.mk (module_name.toList.dropWhile (fun c => c = '.'))
  match root_package with
  | some rp =>
      if rp ≠ "" && !(module_name.startsWith rp) then rp ++ "." ++ module_name
      else module_name
  | none => module_name

/-- First pass of `build_import_graph`: register every file under its
canonical module id (later files overwrite colliding keys, as in a dict). -/
def registerModules (files : List PyFile) (root_package : Option String) :
    List (String × ModuleInfo) :=
  files.foldl (fun mods f =>
    dictSet mods (regKey root_package f)
      { file := f.path, imports := [], imported_by := [] }) []

/-- The `leaf_to_modules` lookup: last dotted segment of every registered
id, in registration order. -/
def leafToModules (mods : List (String × ModuleInfo)) : List (String × List String) :=
  mods.foldl (fun acc p => dictAppend acc (lastSegment p.1) p.1) []

/-- Parsing the file at `path`: the second pass opens the registered file
and parses it; the file system is the input file list. -/
def parseOfFile : List PyFile → String → ImportRecord
  | [], _ => emptyImportRecord
  | f :: rest, path =>
      if f.path = path then parse_imports_with_aliases f.tree
      else parseOfFile rest path

/-- A file with its parse failure healed into an empty parse: used to
state that a malformed file behaves exactly like an empty one. -/
def clearFailed (f : PyFile) : PyFile :=
  if f.tree = none then { f with tree := some [] } else f

/-- Python truthiness of the `target` variable (None and `""` are falsy). -/
def truthy : Option String → Bool
  | none => false
  | some s => s ≠ ""

/-- Resolution strategies 1-3: exact registry match, else the first
registered id that is a strict parent or strict child of the reference. -/
def resolveParentMatch (mods : List (String × ModuleInfo)) (imp : String) :
    Option String :=
  if (dictGet? mods imp).isSome then some imp
  else
    match mods.find? (fun p =>
        p.1.startsWith (imp ++ ".") || imp.startsWith (p.1 ++ ".")) with
    | some p => some p.1
    | none => none

/-- Resolution strategy 4 (leaf-name match), exactly as coded: the
candidates are looked up under `imp.split(".")[0]`, the FIRST dotted
segment of the reference; a unique candidate wins, several candidates
prefer one whose file sits in the importer's directory, else the first. -/
def resolveLeaf (mods : List (String × ModuleInfo))
    (leafMap : List (String × List String)) (importerFile imp : String) :
    Option String :=
  let base := firstSegment imp
  match dictGet? leafMap base with
  | none => none
  | some candidates =>
      if candidates.length = 1 then candidates.head?
      else if candidates ≠ [] then
        let module_dir := dirname importerFile
        match candidates.find? (fun c =>
            decide (dirname (((dictGet? mods c).map (fun i => i.file)).getD "") =
              module_dir)) with
        | some c => some c
        | none => candidates.head?
      else none

/-- The full `target` computation for one absolute import. -/
def resolveAbsolute (mods : List (String × ModuleInfo))
    (leafMap : List (String × List String)) (importerFile imp : String) :
    Option String :=
  let t1 := resolveParentMatch mods imp
  if truthy t1 then t1
  else
    match resolveLeaf mods leafMap importerFile imp with
    | some c => some c
    | none => t1

/-- Mutable state of the second pass. -/
structure GraphState where
  modules : List (String × ModuleInfo)
  internal_edges : List (String × String)
  external_deps : List (String × List String)
  global_aliases : List (String × String)
deriving DecidableEq

/-- Idempotent edge insertion: skip when the target is already among
the importer's imports, else update forward list, reverse list and edge
list. -/
def addEdge (st : GraphState) (module_name target : String) : GraphState :=
  match dictGet? st.modules module_name with
  | none => st
  | some info =>
      if target ∈ info.imports then st
      else
        { st with
          modules :=
            dictUpd
              (dictUpd st.modules module_name
                (fun i => { i with imports := i.imports ++ [target] }))
              target (fun i => { i with imported_by := i.imported_by ++ [module_name] }),
          internal_edges := st.internal_edges ++ [(module_name, target)] }

/-- The `while target and target not in modules` trailing-segment strip of
the relative-import branch, with fuel bounding the segment count. -/
def stripToKnown (mods : List (String × ModuleInfo)) : Nat → String → String
  | 0, t => t
  | n + 1, t =>
      if t ≠ "" ∧ (dictGet? mods t).isNone then
        stripToKnown mods n (String.intercalate "." ((t.splitOn ".").dropLast))
      else t

/-- One absolute import of the second pass: resolve it to an edge, an
external dependency, or drop it silently. -/
def absImportStep (leafMap : List (String × List String))
    (module_name importerFile : String) (st : GraphState) (imp : String) :
    GraphState :=
  let base := firstSegment imp
  let target := resolveAbsolute st.modules leafMap importerFile imp
  if truthy target then
    if target = some module_name then st
    else addEdge st module_name (target.getD "")
  else
    if base ∈ EXTERNAL_PACKAGES then st
    else { st with external_deps := dictAddToSet st.external_deps module_name base }

/-- One relative import of the second pass. -/
def relImportStep (module_name : String) (st : GraphState) (rel_imp : String) :
    GraphState :=
  let resolved := resolve_relative_import module_name rel_imp
  let target := stripToKnown st.modules ((resolved.splitOn ".").length + 1) resolved
  if target ≠ "" ∧ target ≠ module_name then addEdge st module_name target
  else st

/-- Second pass of `build_import_graph` for one module: collect aliases,
resolve each absolute import, then each relative import. -/
def processModule (files : List PyFile) (leafMap : List (String × List String))
    (st : GraphState) (module_name : String) : GraphState :=
  match dictGet? st.modules module_name with
  | none => st
  | some info =>
      let import_data := parseOfFile files info.file
      let st := { st with global_aliases :=
          import_data.aliases.foldl (fun g p => dictSet g p.1 p.2) st.global_aliases }
      let st := import_data.imports.foldl
        (absImportStep leafMap module_name info.file) st
      import_data.relative_imports.foldl (relImportStep module_name) st

/-- Single stream over the edges with a seen-pairs set: whenever the
reversed pair was already seen, record the unordered pair. -/
def circularScan : List (String × String) → List (String × String) →
    List (String × String)
  | [], _ => []
  | (a, b) :: rest, seen =>
      (if (b, a) ∈ seen then [(pymin a b, pymax a b)] else []) ++
        circularScan rest ((a, b) :: seen)

/-- `list(set(circular))`: Python's set has unspecified order, so the
deduplicated collection is modelled keeping first occurrences. -/
def circularOf (edges : List (String × String)) : List (String × String) :=
  (circularScan edges []).dedup

/-- The result dict of `build_import_graph`. -/
structure GraphResult where
  modules : List (String × ModuleInfo)
  internal_edges : List (String × String)
  external_deps : List (String × List String)
  circular : List (String × String)
  aliases : List (String × String)
deriving DecidableEq

/-- `build_import_graph`. -/
def build_import_graph (files : List PyFile) (root_package : Option String) :
    GraphResult :=
  let mods := registerModules files root_package
  let leafMap := leafToModules mods
  let keys := mods.map (fun p => p.1)
  let st := keys.foldl (processModule files leafMap)
    { modules := mods, internal_edges := [], external_deps := [], global_aliases := [] }
  { modules := st.modules, internal_edges := st.internal_edges,
    external_deps := st.external_deps, circular := circularOf st.internal_edges,
    aliases := st.global_aliases }

/-! ## Dependency distance (`calculate_dependency_distance`) -/

/-- One value of the `all_distances` dict: hop count and BFS path. -/
structure DistInfo where
  hops : Nat
  path : List String
deriving DecidableEq

/-- Round-half-to-even at `digits` decimal places (Python's `round`,
idealised over exact rationals). -/
def roundHalfEvenAt (digits : Nat) (q : ℚ) : ℚ :=
  let scale : ℚ := (10 : ℚ) ^ digits
  let m := q * scale
  let f : ℤ := ⌊m⌋
  let frac := m - (f : ℚ)
  let r : ℤ :=
    if frac < 1/2 then f
    else if frac > 1/2 then f + 1
    else if f % 2 = 0 then f else f + 1
  (r : ℚ) / scale

/-- The adjacency `defaultdict(set)` built from the forward import lists. -/
def adjacencyOf (modules : List (String × ModuleInfo)) :
    List (String × List String) :=
  modules.foldl (fun acc p =>
    p.2.imports.foldl (fun acc imported => dictAddToSet acc p.1 imported) acc) []

/-- The BFS `while queue` loop; fuel bounds the number of pops (each
node is enqueued at most once, so `bfsFuel` below always suffices). -/
def bfsLoop (adj : List (String × List String)) :
    Nat → List String → List (String × DistInfo) → List (String × DistInfo)
  | 0, _, dist => dist
  | _ + 1, [], dist => dist
  | fuel + 1, current :: queue, dist =>
      let cur := (dictGet? dist current).getD { hops := 0, path := [current] }
      let step := ((dictGet? adj current).getD []).foldl
        (fun (p : List (String × DistInfo) × List String) neighbor =>
          if (dictGet? p.1 neighbor).isSome then p
          else
            (p.1 ++ [(neighbor,
                { hops := cur.hops + 1, path := cur.path ++ [neighbor] })],
             p.2 ++ [neighbor]))
        (dist, queue)
      bfsLoop adj fuel step.2 step.1

/-- Enough fuel for any BFS over `adj`. -/
def bfsFuel (adj : List (String × List String)) : Nat :=
  1 + adj.length + (adj.map (fun p => p.2.length)).sum

/-- BFS from one start module: `distances = {start: 0}`, `queue = [start]`,
`paths = {start: [start]}`. -/
def bfsFrom (adj : List (String × List String)) (start : String) :
    List (String × DistInfo) :=
  bfsLoop adj (bfsFuel adj) [start] [(start, { hops := 0, path := [start] })]

/-- The `all_distances` dict: for every start module (registration order),
every reachable end module at distance > 0.  Keys `(start, end)` are
unique because starts are distinct dict keys and BFS discovers each end
once. -/
def allDistancesOf (modules : List (String × ModuleInfo)) :
    List ((String × String) × DistInfo) :=
  let adj := adjacencyOf modules
  modules.foldl (fun acc p =>
    (bfsFrom adj p.1).foldl (fun acc q =>
      if q.2.hops > 0 then acc ++ [((p.1, q.1), q.2)] else acc) acc) []

/-- One record of the `tightly_coupled` list. -/
structure CoupledPair where
  file_a : String
  file_b : String
  bidirectional : Bool
  distance : Nat
deriving DecidableEq

/-- The body of the tightly-coupled loop for one `all_distances` entry
`((a,b), info)`: it qualifies when `info.hops ≤ 2` and the REVERSED key
merely exists in `all_distances` (at any distance), and is emitted only
for `a < b`. -/
def couple (all_distances : List ((String × String) × DistInfo))
    (entry : (String × String) × DistInfo) : Option CoupledPair :=
  if entry.2.hops ≤ 2 ∧ (dictGet? all_distances (entry.1.2, entry.1.1)).isSome then
    if entry.1.1 < entry.1.2 then
      some { file_a := entry.1.1, file_b := entry.1.2, bidirectional := true,
             distance := entry.2.hops }
    else none
  else none

/-- The tightly-coupled loop: one streaming pass over `all_distances`
(conditional appends are `filterMap`). -/
def tightlyCoupledFrom (all_distances : List ((String × String) × DistInfo)) :
    List CoupledPair :=
  all_distances.filterMap (couple all_distances)

/-- The result dict of `calculate_dependency_distance`. -/
structure DistanceResult where
  max_depth : Nat
  avg_depth : ℚ
  distances : List ((String × String) × DistInfo)
  tightly_coupled : List CoupledPair
  hub_modules : List (String × Nat)
deriving DecidableEq

/-- `calculate_dependency_distance`. -/
def calculate_dependency_distance (modules : List (String × ModuleInfo)) :
    DistanceResult :=
  if modules = [] then
    { max_depth := 0, avg_depth := 0, distances := [], tightly_coupled := [],
      hub_modules := [] }
  else
    let all := allDistancesOf modules
    let all_depths := all.map (fun e => e.2.hops)
    let tc := tightlyCoupledFrom all
    let counts := modules.map (fun p =>
      (p.1, p.2.imports.length + p.2.imported_by.length))
    let hubs := ((sortByDesc (fun p => (p.2 : ℚ)) counts).take 10).filter
      (fun p => decide (p.2 > 0))
    { max_depth := all_depths.foldl max 0,
      avg_depth :=
        if all_depths = [] then 0
        else roundHalfEvenAt 2 ((all_depths.sum : ℚ) / (all_depths.length : ℚ)),
      distances := all,
      tightly_coupled := tc.take 10,
      hub_modules := hubs }

/-! ## Layer classification (`identify_layers`) -/

def ORCHESTRATION_KEYWORDS : List String :=
  ["manager", "orchestrator", "coordinator", "workflow", "pipeline", "factory",
   "runner"]

def FOUNDATION_KEYWORDS : List String :=
  ["util", "utils", "base", "common", "helper", "abstract", "config", "constants"]

inductive LayerTag where
  | foundation
  | core
  | orchestration
  | leaf
deriving DecidableEq

/-- The per-module classification of `identify_layers` (first match wins). -/
def classifyModule (name : String) (info : ModuleInfo) : LayerTag :=
  let imported_by_count := info.imported_by.length
  let imports_count := info.imports.length
  let r : ℚ := (imported_by_count : ℚ) / ((imports_count : ℚ) + 1)
  let module_lower := name.toLower
  if ORCHESTRATION_KEYWORDS.any (fun kw => strContains module_lower kw) then
    .orchestration
  else if FOUNDATION_KEYWORDS.any (fun kw => strContains module_lower kw) then
    .foundation
  else if imported_by_count = 0 ∧ imports_count = 0 then .leaf
  else if r > 2 then .foundation
  else if r < 1/2 ∧ imports_count > 2 then .orchestration
  else .core

structure Layers where
  foundation : List String
  core : List String
  orchestration : List String
  leaf : List String
deriving DecidableEq

/-- `identify_layers`: classify each module, then sort each layer
descending by importer count. -/
def identify_layers (modules : List (String × ModuleInfo)) : Layers :=
  let pick := fun tag =>
    (modules.filter (fun p => decide (classifyModule p.1 p.2 = tag))).map
      (fun p => p.1)
  let key := fun x =>
    ((((dictGet? modules x).map (fun i => i.imported_by)).getD []).length : ℚ)
  { foundation := sortByDesc key (pick .foundation),
    core := sortByDesc key (pick .core),
    orchestration := sortByDesc key (pick .orchestration),
    leaf := sortByDesc key (pick .leaf) }

/-! ## Orphan detection (`is_entry_point`, `find_orphans`) -/

def ENTRY_POINT_PATTERNS : List String :=
  ["main.py", "__main__.py", "cli.py", "app.py", "wsgi.py", "asgi.py",
   "setup.py", "manage.py", "fabfile.py", "conftest.py"]

/-- Reading a file's raw text; the file system is the input file list. -/
def readText : List PyFile → String → Option String
  | [], _ => none
  | f :: rest, path => if f.path = path then f.text else readText rest path

/-- `is_entry_point`. -/
def is_entry_point (files : List PyFile) (filepath : String) : Bool :=
  let filename := basename filepath
  if filename ∈ ENTRY_POINT_PATTERNS then true
  else if filename.startsWith "test_" then true
  else if filename.endsWith "_test.py" then true
  else
    match readText files filepath with
    | some content =>
        strContains content "if __name__ ==" || strContains content "if __name__=="
    | none => false

structure Orphan where
  file : String
  module : String
  confidence : ℚ
deriving DecidableEq

/-- The body of the `find_orphans` loop for one module: `None` models the
two `continue` paths (has importers, or is an entry point). -/
def orphanOf (files : List PyFile) (p : String × ModuleInfo) : Option Orphan :=
  if p.2.imported_by.length = 0 then
    let filepath := p.2.file
    if is_entry_point files filepath then none
    else
      let filename := (basename filepath).toLower
      let confidence : ℚ :=
        if strContains filepath.toLower "script" then 6/10
        else if ["deprecated", "legacy", "old"].any
            (fun kw => strContains filename kw) then 95/100
        else if ["util", "helper"].any (fun kw => strContains filename kw) then
          7/10
        else 9/10
      some { file := filepath, module := p.1, confidence := confidence }
  else none

/-- `find_orphans`: zero-importer modules that are not entry points, with
the heuristic confidence chain, sorted descending by confidence
(the loop's conditional appends are `filterMap`). -/
def find_orphans (files : List PyFile) (modules : List (String × ModuleInfo)) :
    List Orphan :=
  sortByDesc (fun o => o.confidence) (modules.filterMap (orphanOf files))

/-! ## Priority scoring (`gap_features.calculate_priority_scores`) -/

/-- An entry of `results["hotspots"]` (only the fields read). -/
structure Hotspot where
  file : String
  complexity : ℚ
deriving DecidableEq

/-- An entry of `results["git"]["risk"]`. -/
structure RiskEntry where
  file : String
  risk_score : ℚ
  churn : Nat
  hotfixes : Nat
deriving DecidableEq

/-- An entry of `results["calls"]["most_called"]`. -/
structure MostCalled where
  function : String
  call_sites : Nat
deriving DecidableEq

/-- The slices of the `results` dict that `calculate_priority_scores`
reads: hotspots, git risk records, most-called functions, freshness
buckets (category name to file list) and tested module stems. -/
structure Results where
  hotspots : List Hotspot
  risk : List RiskEntry
  most_called : List MostCalled
  freshness : List (String × List String)
  tested_modules : List String
deriving DecidableEq

/-- Scan for the first recognised project-root part. -/
def normTail : List String → Option (List String)
  | [] => none
  | p :: rest =>
      if p ∈ ["kosmos", "src", "lib", "tests"] then some (p :: rest)
      else normTail rest

/-- The `normalize_path` helper of `calculate_priority_scores`. -/
def normalize_path (p : String) : String :=
  let parts := (p.replace "\\" "/").splitOn "/"
  match normTail parts with
  | some tail => String.intercalate "/" tail
  | none =>
      match parts.getLast? with
      | some last => last
      | none => p

/-- One value of the `files_data` dict.  Fields read through
`.get(key, 0)` in the code are plain fields with default `0`;
`freshness` is `Option` because its read default is `0.5`, distinct from
any assigned weight.  `norm_path` is set at both creation sites, so a
plain field is faithful. -/
structure FileData where
  cc : ℚ := 0
  git_risk : ℚ := 0
  churn : Nat := 0
  hotfixes : Nat := 0
  import_weight : Nat := 0
  freshness : Option ℚ := none
  norm_path : String := ""
deriving DecidableEq

/-- The two dicts the collection phase threads. -/
structure CollectState where
  files_data : List (String × FileData)
  path_map : List (String × String)
deriving DecidableEq

/-- One step of the hotspot-collection loop. -/
def hotspotStep (st : CollectState) (hs : Hotspot) : CollectState :=
  let filepath := hs.file
  if filepath ≠ "" then
    let norm_path := normalize_path filepath
    let path_map := dictSet st.path_map norm_path filepath
    let files_data :=
      if (dictGet? st.files_data filepath).isSome then st.files_data
      else st.files_data ++ [(filepath, { norm_path := norm_path })]
    let files_data := dictUpd files_data filepath
      (fun d => { d with cc := max d.cc hs.complexity })
    { files_data := files_data, path_map := path_map }
  else st

/-- Collection from `results["hotspots"]`. -/
def collectHotspots (hotspots : List Hotspot) : CollectState :=
  hotspots.foldl hotspotStep { files_data := [], path_map := [] }

/-- One step of the risk-collection loop, matching paths through the
normalised-path map. -/
def riskStep (st : CollectState) (r : RiskEntry) : CollectState :=
  let filepath := r.file
  if filepath = "" then st
  else
    let norm_path := normalize_path filepath
    let matched_path := (dictGet? st.path_map norm_path).getD filepath
    let st :=
      if (dictGet? st.files_data matched_path).isSome then st
      else
        { files_data := st.files_data ++ [(matched_path, { norm_path := norm_path })],
          path_map := dictSet st.path_map norm_path matched_path }
    { st with files_data := dictUpd st.files_data matched_path (fun d =>
        { d with git_risk := r.risk_score, churn := r.churn,
                 hotfixes := r.hotfixes }) }

/-- Collection from `results["git"]["risk"]`. -/
def collectRisk (risk : List RiskEntry) (st : CollectState) : CollectState :=
  risk.foldl riskStep st

/-- One step of the most-called loop: the first files-data entry whose
path or normalised path contains the function's module part receives the
call-site count. -/
def callStep (st : CollectState) (mc : MostCalled) : CollectState :=
  let func := mc.function
  if (func.splitOn ".").length > 1 then
    let module_part := String.intercalate "." ((func.splitOn ".").dropLast)
    match st.files_data.find? (fun p =>
        strContains p.1 module_part || strContains p.2.norm_path module_part) with
    | some p =>
        { st with files_data := dictUpd st.files_data p.1 (fun d =>
            { d with import_weight := max d.import_weight mc.call_sites }) }
    | none => st
  else st

/-- Collection from `results["calls"]["most_called"]`. -/
def collectCalls (most_called : List MostCalled) (st : CollectState) : CollectState :=
  most_called.foldl callStep st

/-- The staleness weight of one freshness bucket (unknown names give 0). -/
def freshnessWeight (category : String) : ℚ :=
  (dictGet? [("active", (0 : ℚ)), ("aging", 3/10), ("stale", 6/10), ("dormant", 1)]
    category).getD 0

/-- One file of one freshness bucket: only files already in `files_data`
(matched through the path map) receive the bucket weight. -/
def freshFileStep (path_map : List (String × String)) (weight : ℚ)
    (fd : List (String × FileData)) (f : String) : List (String × FileData) :=
  let norm_fp := normalize_path f
  let matched_path := (dictGet? path_map norm_fp).getD f
  if (dictGet? fd matched_path).isSome then
    dictUpd fd matched_path (fun d => { d with freshness := some weight })
  else fd

/-- One freshness bucket (category, file list). -/
def freshBucketStep (st : CollectState) (p : String × List String) : CollectState :=
  let weight := freshnessWeight p.1
  { st with files_data := p.2.foldl (freshFileStep st.path_map weight) st.files_data }

/-- Collection from `results["git"]["freshness"]`. -/
def collectFreshness (freshness : List (String × List String)) (st : CollectState) :
    CollectState :=
  freshness.foldl freshBucketStep st

/-- The fully collected `files_data` dict for one `results` input. -/
def filesDataOf (results : Results) : List (String × FileData) :=
  (collectFreshness results.freshness
    (collectCalls results.most_called
      (collectRisk results.risk
        (collectHotspots results.hotspots)))).files_data

/-- `normalize_values`: min-max normalisation; all-equal values map to 0.5. -/
def normalize_values (values : List (String × ℚ)) : List (String × ℚ) :=
  match values with
  | [] => []
  | v :: rest =>
      let min_val := rest.foldl (fun m p => min m p.2) v.2
      let max_val := rest.foldl (fun m p => max m p.2) v.2
      if max_val = min_val then (v :: rest).map (fun p => (p.1, (1 : ℚ)/2))
      else (v :: rest).map (fun p => (p.1, (p.2 - min_val) / (max_val - min_val)))

def cc_scores (results : Results) : List (String × ℚ) :=
  (filesDataOf results).map (fun p => (p.1, p.2.cc))

def import_scores (results : Results) : List (String × ℚ) :=
  (filesDataOf results).map (fun p => (p.1, (p.2.import_weight : ℚ)))

def risk_scores (results : Results) : List (String × ℚ) :=
  (filesDataOf results).map (fun p => (p.1, p.2.git_risk))

def freshness_scores (results : Results) : List (String × ℚ) :=
  (filesDataOf results).map (fun p => (p.1, p.2.freshness.getD (1/2)))

def n_cc (results : Results) : List (String × ℚ) := normalize_values (cc_scores results)

def n_imp (results : Results) : List (String × ℚ) :=
  normalize_values (import_scores results)

def n_risk (results : Results) : List (String × ℚ) :=
  normalize_values (risk_scores results)

def n_fresh (results : Results) : List (String × ℚ) :=
  normalize_values (freshness_scores results)

/-- `pathlib.Path(p).stem`: basename without its final suffix. -/
def pathStem (p : String) : String :=
  let name := basename p
  let parts := name.splitOn "."
  if parts.length ≤ 1 then name
  else if name.startsWith "." ∧ parts.length = 2 then name
  else String.intercalate "." parts.dropLast

/-- The reason tags of a priority record (string formatting of the
numeric payloads is presentation only and not modelled). -/
inductive Reason where
  | cc (v : ℚ)
  | risk (v : ℚ)
  | churn (n : Nat)
  | hotfix (n : Nat)
  | manyCallers
  | untested
  | active
deriving DecidableEq

/-- A scored file before `raw_risk` is popped. -/
structure PriorityRec where
  file : String
  score : ℚ
  reasons : List Reason
  raw_risk : ℚ
deriving DecidableEq

/-- A returned priority record. -/
structure PriorityOut where
  file : String
  score : ℚ
  reasons : List Reason
deriving DecidableEq

/-- `pf.pop("raw_risk", None)`. -/
def dropRaw (p : PriorityRec) : PriorityOut :=
  { file := p.file, score := p.score, reasons := p.reasons }

/-- The body of the scoring loop for one `files_data` item. -/
def scoreEntry (tested_modules : List String)
    (ncc nimp nrisk nfresh : List (String × ℚ)) (filepath : String)
    (data : FileData) : PriorityRec :=
  let s_cc := (dictGet? ncc filepath).getD 0
  let s_imp := (dictGet? nimp filepath).getD 0
  let s_risk := (dictGet? nrisk filepath).getD 0
  let s_fresh := (dictGet? nfresh filepath).getD 0
  let filename_stem := pathStem filepath
  let s_untested : ℚ := if filename_stem ∈ tested_modules then 0 else 1
  let score := s_cc * (25/100) + s_imp * (20/100) + s_risk * (30/100) +
    s_fresh * (15/100) + s_untested * (10/100)
  let reasons :=
    (if data.cc > 10 then [Reason.cc data.cc] else []) ++
    (if data.git_risk > 1/2 then [Reason.risk data.git_risk] else []) ++
    (if data.churn > 5 then [Reason.churn data.churn] else []) ++
    (if data.hotfixes > 3 then [Reason.hotfix data.hotfixes] else []) ++
    (if data.import_weight > 10 then [Reason.manyCallers] else []) ++
    (if s_untested > 0 then [Reason.untested] else [])
  { file := filepath, score := roundHalfEvenAt 3 score,
    reasons := if reasons = [] then [Reason.active] else reasons,
    raw_risk := data.git_risk }

/-- One step of the scoring loop: files whose normalised path was
already seen (the `seen_basenames` set) are skipped. -/
def seenStep (tested_modules : List String)
    (ncc nimp nrisk nfresh : List (String × ℚ))
    (acc : List PriorityRec × List String) (p : String × FileData) :
    List PriorityRec × List String :=
  let norm := p.2.norm_path
  if norm ∈ acc.2 then acc
  else
    (acc.1 ++ [scoreEntry tested_modules ncc nimp nrisk nfresh p.1 p.2],
     acc.2 ++ [norm])

/-- The scoring loop: one priority record per unseen normalised path. -/
def priorityFilesOf (results : Results) : List PriorityRec :=
  ((filesDataOf results).foldl
    (seenStep results.tested_modules (n_cc results) (n_imp results)
      (n_risk results) (n_fresh results)) ([], [])).1

/-- `priority_files` after the first `sort(key=score, reverse=True)`. -/
def sortedPriorityOf (results : Results) : List PriorityRec :=
  sortByDesc (fun p => p.score) (priorityFilesOf results)

/-- The fallback block: truncate to the top 20, then append at most 3
files of raw git risk above 0.7 that are not already among them. -/
def top20WithRiskOf (results : Results) : List PriorityRec :=
  let priority_files := sortedPriorityOf results
  let top_risk_files := priority_files.filter (fun pf => decide (pf.raw_risk > 7/10))
  let top_20 := priority_files.take 20
  let top_20_paths := top_20.map (fun pf => pf.file)
  top_20 ++ (top_risk_files.take 3).filter (fun rf => decide (rf.file ∉ top_20_paths))

/-- `calculate_priority_scores`: pop `raw_risk`, re-sort, return the
first 20. -/
def calculate_priority_scores (results : Results) : List PriorityOut :=
  (sortByDesc (fun p => p.score) ((top20WithRiskOf results).map dropRaw)).take 20

/-! ## Concrete inputs and spec-modelled comparison definitions -/

/-- The four-module import cycle a → b → c → d → a: distances 1, 2, 3
in one direction around the ring. -/
def cycle4 : List (String × ModuleInfo) :=
  [("a", ⟨"a.py", ["b"], ["d"]⟩), ("b", ⟨"b.py", ["c"], ["a"]⟩),
   ("c", ⟨"c.py", ["d"], ["b"]⟩), ("d", ⟨"d.py", ["a"], ["c"]⟩)]

/-- Modelled from the spec: the leaf-name rule as §4.3 states it — the
candidates are looked up under the reference's LAST path segment (the
implementation uses the first); kept only for comparison with
`resolveLeaf`. -/
def resolveLeafSpec (mods : List (String × ModuleInfo))
    (leafMap : List (String × List String)) (importerFile imp : String) :
    Option String :=
  let base := lastSegment imp
  match dictGet? leafMap base with
  | none => none
  | some candidates =>
      if candidates.length = 1 then candidates.head?
      else if candidates ≠ [] then
        let module_dir := dirname importerFile
        match candidates.find? (fun c =>
            decide (dirname (((dictGet? mods c).map (fun i => i.file)).getD "") =
              module_dir)) with
        | some c => some c
        | none => candidates.head?
      else none

/-- The three files of the C4 counterexample: the importer references
`a.b`; registered ids are `c.a` (leaf `a`) and `d.b` (leaf `b`). -/
def c4files : List PyFile :=
  [⟨"m.py", some [.imp [⟨"a.b", none⟩]], none⟩,
   ⟨"c/a.py", some [], none⟩, ⟨"d/b.py", some [], none⟩]

/-- The registry of the end-to-end `utils` scenario: two modules whose
ids end in `.utils`, one in the importer's directory. -/
def c4utils : List PyFile :=
  [⟨"q/m.py", some [.imp [⟨"utils", none⟩]], none⟩,
   ⟨"p/utils.py", some [], none⟩, ⟨"q/utils.py", some [], none⟩]

/-- Modelled from the spec: the claimed 5-signal formula for when
coverage data is present (the implementation does not contain it). -/
def specScore5 (c i r f u : ℚ) : ℚ :=
  c * (30/100) + i * (20/100) + r * (20/100) + f * (15/100) + u * (15/100)

/-- Modelled from the spec: the claimed 4-signal formula for when no
coverage data is available (the implementation does not contain it). -/
def specScore4 (c i r f : ℚ) : ℚ :=
  c * (35/100) + i * (25/100) + r * (25/100) + f * (15/100)

/-- A three-file input with coverage data present (`tested_modules`
nonempty): `a.py` is the complexity extreme, `b.py` the risk extreme. -/
def c2input : Results :=
  { hotspots := [⟨"a.py", 10⟩, ⟨"b.py", 0⟩, ⟨"c.py", 0⟩],
    risk := [⟨"b.py", 1, 0, 0⟩],
    most_called := [], freshness := [],
    tested_modules := ["c"] }

/-- The 21-file input that exercises the high-risk fallback: 20 scored
hotspot files occupy the whole top-20, and `z.py` carries raw git risk
0.9 with the lowest composite score. -/
def c1input : Results :=
  { hotspots :=
      [⟨"f01.py", 1000⟩, ⟨"f02.py", 980⟩, ⟨"f03.py", 960⟩, ⟨"f04.py", 940⟩,
       ⟨"f05.py", 920⟩, ⟨"f06.py", 900⟩, ⟨"f07.py", 880⟩, ⟨"f08.py", 860⟩,
       ⟨"f09.py", 840⟩, ⟨"f10.py", 820⟩, ⟨"f11.py", 800⟩, ⟨"f12.py", 780⟩,
       ⟨"f13.py", 760⟩, ⟨"f14.py", 740⟩, ⟨"f15.py", 720⟩, ⟨"f16.py", 700⟩,
       ⟨"f17.py", 680⟩, ⟨"f18.py", 660⟩, ⟨"f19.py", 640⟩, ⟨"f20.py", 620⟩],
    risk := [⟨"z.py", 9/10, 0, 0⟩],
    most_called := [],
    freshness :=
      [("dormant",
        ["f01.py", "f02.py", "f03.py", "f04.py", "f05.py", "f06.py", "f07.py",
         "f08.py", "f09.py", "f10.py", "f11.py", "f12.py", "f13.py", "f14.py",
         "f15.py", "f16.py", "f17.py", "f18.py", "f19.py", "f20.py"]),
       ("active", ["z.py"])],
    tested_modules := [] }


/-! ## General lemmas about the modelling primitives -/

theorem insertDesc_perm {α : Type} (key : α → ℚ) (x : α) (l : List α) :
    (insertDesc key x l).Perm (x :: l) := by
  induction l with
  | nil => simp [insertDesc]
  | cons y ys ih =>
      by_cases h : key y ≤ key x
      · simp [insertDesc, h]
      · simp only [insertDesc, if_neg h]
        exact (ih.cons y).trans (List.Perm.swap x y ys)

theorem sortByDesc_perm {α : Type} (key : α → ℚ) (l : List α) :
    (sortByDesc key l).Perm l := by
  induction l with
  | nil => simp [sortByDesc]
  | cons x xs ih =>
      have : sortByDesc key (x :: xs) = insertDesc key x (sortByDesc key xs) := rfl
      rw [this]
      exact (insertDesc_perm key x (sortByDesc key xs)).trans (ih.cons x)

theorem mem_sortByDesc {α : Type} (key : α → ℚ) (l : List α) (a : α) :
    a ∈ sortByDesc key l ↔ a ∈ l :=
  (sortByDesc_perm key l).mem_iff

theorem mem_insertDesc {α : Type} (key : α → ℚ) (x a : α) (l : List α) :
    a ∈ insertDesc key x l ↔ a = x ∨ a ∈ l := by
  rw [(insertDesc_perm key x l).mem_iff]
  simp

theorem insertDesc_sorted {α : Type} (key : α → ℚ) (x : α) (l : List α)
    (h : l.Pairwise (fun u v => key v ≤ key u)) :
    (insertDesc key x l).Pairwise (fun u v => key v ≤ key u) := by
  induction l with
  | nil => simp [insertDesc]
  | cons y ys ih =>
      have h1 := (List.pairwise_cons.mp h).1
      have h2 := (List.pairwise_cons.mp h).2
      by_cases hxy : key y ≤ key x
      · simp only [insertDesc, if_pos hxy]
        refine List.Pairwise.cons ?_ h
        intro v hv
        rcases List.mem_cons.mp hv with hv | hv
        · exact hv ▸ hxy
        · exact (h1 v hv).trans hxy
      · simp only [insertDesc, if_neg hxy]
        refine List.Pairwise.cons ?_ (ih h2)
        intro v hv
        rcases (mem_insertDesc key x v ys).mp hv with hv | hv
        · exact hv ▸ (le_of_not_le hxy)
        · exact h1 v hv

theorem sortByDesc_sorted {α : Type} (key : α → ℚ) (l : List α) :
    (sortByDesc key l).Pairwise (fun u v => key v ≤ key u) := by
  induction l with
  | nil => simp [sortByDesc]
  | cons x xs ih => exact insertDesc_sorted key x (sortByDesc key xs) ih

theorem insertDesc_eq_cons {α : Type} (key : α → ℚ) (x : α) (l : List α)
    (h : ∀ y ∈ l, key y ≤ key x) : insertDesc key x l = x :: l := by
  cases l with
  | nil => rfl
  | cons y ys => rw [insertDesc, if_pos (h y (List.mem_cons_self _ _))]

theorem sortByDesc_eq_self {α : Type} (key : α → ℚ) (l : List α)
    (h : l.Pairwise (fun u v => key v ≤ key u)) : sortByDesc key l = l := by
  induction l with
  | nil => rfl
  | cons x xs ih =>
      have h1 := (List.pairwise_cons.mp h).1
      have h2 := (List.pairwise_cons.mp h).2
      show insertDesc key x (sortByDesc key xs) = x :: xs
      rw [ih h2]
      exact insertDesc_eq_cons key x xs h1

theorem sortByDesc_append_low {α : Type} (key : α → ℚ) (l s : List α)
    (hl : l.Pairwise (fun u v => key v ≤ key u))
    (hs : ∀ a ∈ s, ∀ y ∈ l, key a ≤ key y) :
    sortByDesc key (l ++ s) = l ++ sortByDesc key s := by
  induction l with
  | nil => simp
  | cons x xs ih =>
      have h1 := (List.pairwise_cons.mp hl).1
      have h2 := (List.pairwise_cons.mp hl).2
      show insertDesc key x (sortByDesc key (xs ++ s)) =
        x :: (xs ++ sortByDesc key s)
      rw [ih h2 (fun a ha y hy => hs a ha y (List.mem_cons_of_mem _ hy))]
      apply insertDesc_eq_cons
      intro y hy
      rcases List.mem_append.mp hy with hy | hy
      · exact h1 y hy
      · exact hs y ((mem_sortByDesc key s y).mp hy) x (List.mem_cons_self _ _)

theorem foldl_inv {σ γ : Type} (step : σ → γ → σ) (P : σ → Prop)
    (hstep : ∀ s g, P s → P (step s g)) :
    ∀ (l : List γ) (s : σ), P s → P (l.foldl step s) := by
  intro l
  induction l with
  | nil => exact fun s hs => hs
  | cons x xs ih => exact fun s hs => ih (step s x) (hstep s x hs)

theorem mem_of_dictGet? {α β : Type} [DecidableEq α] {l : List (α × β)} {k : α}
    {v : β} (h : dictGet? l k = some v) : (k, v) ∈ l := by
  induction l with
  | nil => simp [dictGet?] at h
  | cons p rest ih =>
      by_cases hk : p.1 = k
      · rw [dictGet?, if_pos hk] at h
        obtain ⟨a, b⟩ := p
        cases h
        cases hk
        exact List.mem_cons_self _ _
      · rw [dictGet?, if_neg hk] at h
        exact List.mem_cons_of_mem _ (ih h)

theorem dictGet?_eq_some_of_mem {α β : Type} [DecidableEq α]
    {l : List (α × β)} {k : α} {v : β}
    (hnd : (l.map (fun p => p.1)).Nodup) (hm : (k, v) ∈ l) :
    dictGet? l k = some v := by
  induction l with
  | nil => simp at hm
  | cons p rest ih =>
      simp only [List.map_cons, List.nodup_cons] at hnd
      rcases List.mem_cons.mp hm with hm | hm
      · subst hm
        simp [dictGet?]
      · have hk : p.1 ≠ k := by
          intro hk
          exact hnd.1 (hk ▸ (List.mem_map.mpr ⟨(k, v), hm, rfl⟩))
        rw [dictGet?, if_neg hk]
        exact ih hnd.2 hm

theorem filterMap_map_sublist {α β γ : Type} (g : α → Option β) (proj : β → γ)
    (keyf : α → γ) (l : List α)
    (hg : ∀ a b, g a = some b → proj b = keyf a) :
    ((l.filterMap g).map proj).Sublist (l.map keyf) := by
  induction l with
  | nil => simp
  | cons a rest ih =>
      cases hga : g a with
      | none => simpa [List.filterMap_cons, hga] using ih.cons (keyf a)
      | some b =>
          simpa [List.filterMap_cons, hga, hg a b hga] using ih.cons₂ (keyf a)

theorem pymin_comm (a b : String) : pymin a b = pymin b a := by
  unfold pymin
  rcases lt_trichotomy a b with h | h | h
  · rw [if_neg (asymm h), if_pos h]
  · simp [h]
  · rw [if_pos h, if_neg (asymm h)]

theorem pymax_comm (a b : String) : pymax a b = pymax b a := by
  unfold pymax
  rcases lt_trichotomy a b with h | h | h
  · rw [if_pos h, if_neg (asymm h)]
  · simp [h]
  · rw [if_neg (asymm h), if_pos h]

/-! ## Lemmas about the cycle detector -/

theorem mem_circularScan (edges : List (String × String))
    (hns : ∀ p ∈ edges, p.1 ≠ p.2) (seen : List (String × String))
    (x : String × String) :
    x ∈ circularScan edges seen ↔
      ∃ a b, x = (pymin a b, pymax a b) ∧ (a, b) ∈ edges ∧
        ((b, a) ∈ seen ∨ (b, a) ∈ edges) := by
  induction edges generalizing seen with
  | nil => simp [circularScan]
  | cons e rest ih =>
      obtain ⟨c, d⟩ := e
      have hcd : c ≠ d := hns (c, d) (List.mem_cons_self _ _)
      have hns' : ∀ p ∈ rest, p.1 ≠ p.2 := fun p hp => hns p (List.mem_cons_of_mem _ hp)
      constructor
      · intro hx
        rcases List.mem_append.mp hx with hx | hx
        · by_cases hsee : (d, c) ∈ seen
          · rw [if_pos hsee, List.mem_singleton] at hx
            exact ⟨c, d, hx, List.mem_cons_self _ _, Or.inl hsee⟩
          · rw [if_neg hsee] at hx
            simp at hx
        · obtain ⟨a, b, hxab, habr, hdisj⟩ := (ih hns' ((c, d) :: seen)).mp hx
          refine ⟨a, b, hxab, List.mem_cons_of_mem _ habr, ?_⟩
          rcases hdisj with hba | hba
          · rcases List.mem_cons.mp hba with hba | hba
            · exact Or.inr (hba ▸ List.mem_cons_self _ _)
            · exact Or.inl hba
          · exact Or.inr (List.mem_cons_of_mem _ hba)
      · rintro ⟨a, b, hxab, hab, hdisj⟩
        rcases List.mem_cons.mp hab with hab | hab
        · have hac : a = c := congrArg Prod.fst hab
          have hbd : b = d := congrArg Prod.snd hab
          subst hac
          subst hbd
          rcases hdisj with hba | hba
          · refine List.mem_append.mpr (Or.inl ?_)
            rw [if_pos hba, List.mem_singleton]
            exact hxab
          · rcases List.mem_cons.mp hba with hba | hba
            · exact absurd (congrArg Prod.fst hba) hcd.symm
            · refine List.mem_append.mpr (Or.inr ?_)
              refine (ih hns' ((a, b) :: seen)).mpr ⟨b, a, ?_, hba, ?_⟩
              · rw [hxab, pymin_comm, pymax_comm]
              · exact Or.inl (List.mem_cons_self _ _)
        · rcases hdisj with hba | hba
          · refine List.mem_append.mpr (Or.inr ?_)
            exact (ih hns' _).mpr ⟨a, b, hxab, hab, Or.inl (List.mem_cons_of_mem _ hba)⟩
          · rcases List.mem_cons.mp hba with hba | hba
            · refine List.mem_append.mpr (Or.inr ?_)
              exact (ih hns' _).mpr ⟨a, b, hxab, hab, Or.inl (hba ▸ List.mem_cons_self _ _)⟩
            · refine List.mem_append.mpr (Or.inr ?_)
              exact (ih hns' _).mpr ⟨a, b, hxab, hab, Or.inr hba⟩

theorem mem_circularOf (edges : List (String × String))
    (hns : ∀ p ∈ edges, p.1 ≠ p.2) (x : String × String) :
    x ∈ circularOf edges ↔
      ∃ a b, x = (pymin a b, pymax a b) ∧ (a, b) ∈ edges ∧ (b, a) ∈ edges := by
  unfold circularOf
  rw [List.mem_dedup, mem_circularScan edges hns [] x]
  simp

/-- `addEdge` only ever appends the pair it is given. -/
theorem addEdge_no_self (st : GraphState) (m t : String) (hne : m ≠ t)
    (h : ∀ p ∈ st.internal_edges, p.1 ≠ p.2) :
    ∀ p ∈ (addEdge st m t).internal_edges, p.1 ≠ p.2 := by
  intro p hp
  unfold addEdge at hp
  cases hd : dictGet? st.modules m with
  | none =>
      simp only [hd] at hp
      exact h p hp
  | some info =>
      simp only [hd] at hp
      by_cases hmem : t ∈ info.imports
      · rw [if_pos hmem] at hp
        exact h p hp
      · rw [if_neg hmem] at hp
        replace hp : p ∈ st.internal_edges ++ [(m, t)] := hp
        rcases List.mem_append.mp hp with hp | hp
        · exact h p hp
        · rw [List.mem_singleton] at hp
          subst hp
          exact hne

theorem absImportStep_no_self (leafMap : List (String × List String))
    (mn f : String) (st : GraphState) (imp : String)
    (h : ∀ p ∈ st.internal_edges, p.1 ≠ p.2) :
    ∀ p ∈ (absImportStep leafMap mn f st imp).internal_edges, p.1 ≠ p.2 := by
  simp only [absImportStep]
  split_ifs with h1 h2 h3
  · exact h
  · cases ht : resolveAbsolute st.modules leafMap f imp with
    | none =>
        rw [ht] at h1
        cases h1
    | some s =>
        rw [ht] at h2
        refine addEdge_no_self st mn ((some s).getD "") ?_ h
        intro heq
        exact h2 (congrArg some heq.symm)
  · exact h
  · exact h

theorem relImportStep_no_self (mn : String) (st : GraphState) (rel_imp : String)
    (h : ∀ p ∈ st.internal_edges, p.1 ≠ p.2) :
    ∀ p ∈ (relImportStep mn st rel_imp).internal_edges, p.1 ≠ p.2 := by
  simp only [relImportStep]
  split_ifs with h1
  · exact addEdge_no_self st mn _ (Ne.symm h1.2) h
  · exact h

theorem processModule_no_self (files : List PyFile)
    (leafMap : List (String × List String)) (st : GraphState) (mn : String)
    (h : ∀ p ∈ st.internal_edges, p.1 ≠ p.2) :
    ∀ p ∈ (processModule files leafMap st mn).internal_edges, p.1 ≠ p.2 := by
  unfold processModule
  cases hd : dictGet? st.modules mn with
  | none => exact h
  | some info =>
      apply foldl_inv (relImportStep mn)
        (fun s => ∀ p ∈ s.internal_edges, p.1 ≠ p.2)
        (fun s g hs => relImportStep_no_self mn s g hs)
      apply foldl_inv (absImportStep leafMap mn info.file)
        (fun s => ∀ p ∈ s.internal_edges, p.1 ≠ p.2)
        (fun s g hs => absImportStep_no_self leafMap mn info.file s g hs)
      exact h

/-- The graph builder never records a self-edge (the `target !=
module_name` guards). -/
theorem build_no_self_edges (files : List PyFile) (rp : Option String) :
    ∀ p ∈ (build_import_graph files rp).internal_edges, p.1 ≠ p.2 := by
  show ∀ p ∈ (((registerModules files rp).map (fun p => p.1)).foldl
      (processModule files (leafToModules (registerModules files rp)))
      { modules := registerModules files rp, internal_edges := [],
        external_deps := [], global_aliases := [] }).internal_edges, p.1 ≠ p.2
  exact foldl_inv _ (fun st => ∀ p ∈ st.internal_edges, p.1 ≠ p.2)
    (fun s g hs => processModule_no_self files _ s g hs)
    ((registerModules files rp).map (fun p => p.1))
    { modules := registerModules files rp, internal_edges := [],
      external_deps := [], global_aliases := [] } (by simp)

/-! ## Lemmas about dict assignment and the registry -/

theorem dictSet_map_fst {α β : Type} [DecidableEq α] (l : List (α × β)) (k : α)
    (v : β) :
    (dictSet l k v).map (fun p => p.1) =
      if k ∈ l.map (fun p => p.1) then l.map (fun p => p.1)
      else l.map (fun p => p.1) ++ [k] := by
  induction l with
  | nil => simp [dictSet]
  | cons p rest ih =>
      by_cases hk : p.1 = k
      · simp [dictSet, hk]
      · simp only [dictSet, if_neg hk, List.map_cons, ih]
        by_cases hmem : k ∈ rest.map (fun p => p.1)
        · simp [hmem, Ne.symm hk]
        · simp [hmem, Ne.symm hk]

theorem dictSet_keys_nodup {α β : Type} [DecidableEq α] (l : List (α × β))
    (k : α) (v : β) (h : (l.map (fun p => p.1)).Nodup) :
    ((dictSet l k v).map (fun p => p.1)).Nodup := by
  rw [dictSet_map_fst]
  by_cases hmem : k ∈ l.map (fun p => p.1)
  · rwa [if_pos hmem]
  · rw [if_neg hmem]
    refine List.nodup_append.mpr ⟨h, List.nodup_singleton k, ?_⟩
    intro x hx hk
    rw [List.mem_singleton] at hk
    exact hmem (hk ▸ hx)

theorem dictSet_length_le {α β : Type} [DecidableEq α] (l : List (α × β))
    (k : α) (v : β) : (dictSet l k v).length ≤ l.length + 1 := by
  induction l with
  | nil => simp [dictSet]
  | cons p rest ih =>
      by_cases hk : p.1 = k
      · simp [dictSet, hk]
      · simp only [dictSet, if_neg hk, List.length_cons]
        omega

theorem foldl_dictSet_props {α β γ : Type} [DecidableEq α] (kf : γ → α)
    (vf : γ → β) (items : List γ) (acc : List (α × β))
    (h : (acc.map (fun p => p.1)).Nodup) :
    (((items.foldl (fun m f => dictSet m (kf f) (vf f)) acc).map
        (fun p => p.1)).Nodup ∧
      (items.foldl (fun m f => dictSet m (kf f) (vf f)) acc).length ≤
        acc.length + items.length) := by
  induction items generalizing acc with
  | nil => exact ⟨h, by simp⟩
  | cons f fs ih =>
      have step := ih (dictSet acc (kf f) (vf f)) (dictSet_keys_nodup acc _ _ h)
      refine ⟨step.1, ?_⟩
      calc (fs.foldl (fun m f => dictSet m (kf f) (vf f))
              (dictSet acc (kf f) (vf f))).length
          ≤ (dictSet acc (kf f) (vf f)).length + fs.length := step.2
        _ ≤ (acc.length + 1) + fs.length := by
              exact Nat.add_le_add_right (dictSet_length_le acc _ _) _
        _ = acc.length + (f :: fs).length := by simp [Nat.add_assoc, Nat.add_comm 1]

/-! ## Claim theorems -/

/-- C5 counterexample: the registry mapping is NOT injective — the two
distinct input files `foo.py` and `foo/__init__.py` both canonicalise to
the id `foo`, so the registry has 1 entry for 2 input files, refuting
"the number of registry entries equals the number of input files". -/
theorem registry_collision_cex :
    (registerModules
      [⟨"foo.py", some [], none⟩, ⟨"foo/__init__.py", some [], none⟩]
      none).length ≠
      ([⟨"foo.py", some [], none⟩, ⟨"foo/__init__.py", some [], none⟩] :
        List PyFile).length := by
  with_unfolding_all decide

/-- C5 (amended): registry keys are unique (it is a dict) and each file
yields exactly one path-derived id, but the file-to-id map need not be
injective: colliding files overwrite, so the registry has at most — not
exactly — as many entries as input files. -/
theorem registry_keys_unique (files : List PyFile) (rp : Option String) :
    ((registerModules files rp).map (fun p => p.1)).Nodup ∧
      (registerModules files rp).length ≤ files.length := by
  have h := foldl_dictSet_props (regKey rp)
    (fun f => ({ file := f.path, imports := [], imported_by := [] } : ModuleInfo))
    files [] (by simp)
  simpa [registerModules] using h

/-- C6: whenever `(a, b)` and `(b, a)` are both edges of a self-edge-free
edge list — and the edge list of every graph `build_import_graph`
produces is self-edge-free, via its `target != module_name` guards —
the unordered pair `(min, max)` occurs exactly once in the circular
list, and the circular set does not depend on the order in which the
edges were inserted. -/
theorem circular_pair_exactly_once (edges edges' : List (String × String))
    (a b : String) (hns : ∀ p ∈ edges, p.1 ≠ p.2)
    (hab : (a, b) ∈ edges) (hba : (b, a) ∈ edges) (hperm : edges.Perm edges') :
    ((pymin a b, pymax a b) ∈ circularOf edges ∧ (circularOf edges).Nodup) ∧
      (∀ x, x ∈ circularOf edges' ↔ x ∈ circularOf edges) ∧
      (∀ (files : List PyFile) (rp : Option String),
        (build_import_graph files rp).circular =
          circularOf (build_import_graph files rp).internal_edges ∧
        ∀ p ∈ (build_import_graph files rp).internal_edges, p.1 ≠ p.2) := by
  have hns' : ∀ p ∈ edges', p.1 ≠ p.2 := fun p hp => hns p (hperm.mem_iff.mpr hp)
  refine ⟨?_, ?_, ?_⟩
  · exact ⟨(mem_circularOf edges hns _).mpr ⟨a, b, rfl, hab, hba⟩,
      List.nodup_dedup _⟩
  · intro x
    rw [mem_circularOf edges hns x, mem_circularOf edges' hns' x]
    constructor
    · rintro ⟨u, v, hx, h1, h2⟩
      exact ⟨u, v, hx, hperm.mem_iff.mpr h1, hperm.mem_iff.mpr h2⟩
    · rintro ⟨u, v, hx, h1, h2⟩
      exact ⟨u, v, hx, hperm.mem_iff.mp h1, hperm.mem_iff.mp h2⟩
  · exact fun files rp => ⟨rfl, build_no_self_edges files rp⟩

/-- Witness for C6 at the concrete mutual pair a ↔ b, with the two
possible insertion orders. -/
theorem circular_pair_exactly_once_witness :
    ((pymin "a" "b", pymax "a" "b") ∈ circularOf [("a", "b"), ("b", "a")] ∧
        (circularOf [("a", "b"), ("b", "a")]).Nodup) ∧
      (∀ x, x ∈ circularOf [("b", "a"), ("a", "b")] ↔
        x ∈ circularOf [("a", "b"), ("b", "a")]) ∧
      (∀ (files : List PyFile) (rp : Option String),
        (build_import_graph files rp).circular =
          circularOf (build_import_graph files rp).internal_edges ∧
        ∀ p ∈ (build_import_graph files rp).internal_edges, p.1 ≠ p.2) :=
  circular_pair_exactly_once [("a", "b"), ("b", "a")] [("b", "a"), ("a", "b")]
    "a" "b" (by with_unfolding_all decide) (by with_unfolding_all decide)
    (by with_unfolding_all decide) (by with_unfolding_all decide)

/-- C8: keyword classification precedes the graph-shape ratio rules —
any module whose lowercased name contains an orchestration keyword is
put in the orchestration layer, whatever its import counts. -/
theorem orchestration_keyword_precedence (mods : List (String × ModuleInfo))
    (name : String) (info : ModuleInfo) (hm : (name, info) ∈ mods)
    (hkw : ORCHESTRATION_KEYWORDS.any
      (fun kw => strContains name.toLower kw) = true) :
    name ∈ (identify_layers mods).orchestration := by
  have hcl : classifyModule name info = .orchestration := by
    simp [classifyModule, hkw]
  simp only [identify_layers]
  rw [mem_sortByDesc]
  exact List.mem_map.mpr ⟨(name, info), List.mem_filter.mpr ⟨hm, by simp [hcl]⟩, rfl⟩

/-- Witness for C8: "OrderManager" with zero imports and one importer is
classified orchestration (the ratio rules would have said core). -/
theorem orchestration_keyword_precedence_witness :
    "OrderManager" ∈ (identify_layers
      [("OrderManager", ⟨"ordermanager.py", [], ["x"]⟩),
       ("x", ⟨"x.py", ["OrderManager"], []⟩)]).orchestration :=
  orchestration_keyword_precedence _ "OrderManager"
    ⟨"ordermanager.py", [], ["x"]⟩ (by with_unfolding_all decide)
    (by with_unfolding_all decide)

/-! ## Lemmas for parse-failure isolation (C9) -/

theorem clearFailed_path (f : PyFile) : (clearFailed f).path = f.path := by
  unfold clearFailed
  split <;> rfl

theorem parse_clearFailed_tree (f : PyFile) :
    parse_imports_with_aliases (clearFailed f).tree =
      parse_imports_with_aliases f.tree := by
  unfold clearFailed
  split
  · next h =>
      rw [h]
      rfl
  · rfl

theorem parseOfFile_clearFailed (files : List PyFile) (p : String) :
    parseOfFile (files.map clearFailed) p = parseOfFile files p := by
  induction files with
  | nil => rfl
  | cons f fs ih =>
      simp only [List.map_cons, parseOfFile, clearFailed_path]
      by_cases hp : f.path = p
      · rw [if_pos hp, if_pos hp, parse_clearFailed_tree]
      · rw [if_neg hp, if_neg hp, ih]

theorem regKey_clearFailed (rp : Option String) (f : PyFile) :
    regKey rp (clearFailed f) = regKey rp f := by
  unfold regKey
  rw [clearFailed_path]

theorem registerModules_clearFailed (files : List PyFile) (rp : Option String) :
    registerModules (files.map clearFailed) rp = registerModules files rp := by
  unfold registerModules
  rw [List.foldl_map]
  apply List.foldl_ext
  intro acc f _
  rw [regKey_clearFailed, clearFailed_path]

theorem processModule_clearFailed (files : List PyFile)
    (lm : List (String × List String)) (st : GraphState) (name : String) :
    processModule (files.map clearFailed) lm st name =
      processModule files lm st name := by
  simp only [processModule, parseOfFile_clearFailed]

/-- C9: import parsing is total and failure-isolating — a file that
cannot be read or parsed yields the empty import record, and the
whole import graph is unchanged when every such file is replaced by a
successfully parsed empty file, so one malformed file never disturbs
(let alone aborts) the analysis of the others. -/
theorem parse_failure_isolated :
    parse_imports_with_aliases none = emptyImportRecord ∧
      ∀ (files : List PyFile) (rp : Option String),
        build_import_graph (files.map clearFailed) rp =
          build_import_graph files rp := by
  refine ⟨rfl, ?_⟩
  intro files rp
  unfold build_import_graph
  rw [registerModules_clearFailed]
  have hpm : processModule (files.map clearFailed) = processModule files := by
    funext lm st name
    exact processModule_clearFailed files lm st name
  rw [hpm]

/-- C10: every orphan's confidence follows the first-match chain — 0.6
when the whole path (lowercased) contains "script" (outranking all other
rules, including deprecated/legacy/old filenames), else 0.95 for
deprecated/legacy/old filenames, else 0.7 for util/helper filenames,
else 0.9 — so it is always one of {0.6, 0.7, 0.9, 0.95}, and the
returned list is sorted descending by confidence. -/
theorem orphan_confidence_policy (files : List PyFile)
    (mods : List (String × ModuleInfo)) :
    (∀ o ∈ find_orphans files mods,
      o.confidence =
        (if strContains o.file.toLower "script" then (6 : ℚ)/10
         else if ["deprecated", "legacy", "old"].any
             (fun kw => strContains (basename o.file).toLower kw) then 95/100
         else if ["util", "helper"].any
             (fun kw => strContains (basename o.file).toLower kw) then 7/10
         else 9/10) ∧
      o.confidence ∈ ([6/10, 7/10, 9/10, 95/100] : List ℚ)) ∧
    (find_orphans files mods).Pairwise (fun x y => y.confidence ≤ x.confidence) := by
  constructor
  · intro o homem
    rw [find_orphans, mem_sortByDesc] at homem
    obtain ⟨p, hp, ho⟩ := List.mem_filterMap.mp homem
    simp only [orphanOf] at ho
    by_cases h0 : p.2.imported_by.length = 0
    · rw [if_pos h0] at ho
      by_cases hep : is_entry_point files p.2.file
      · simp [hep] at ho
      · rw [if_neg hep] at ho
        have ho' := Option.some.inj ho
        subst ho'
        constructor
        · rfl
        · by_cases h1 : strContains p.2.file.toLower "script" = true
          · simp [h1]
          · by_cases h2 : (["deprecated", "legacy", "old"].any
                (fun kw => strContains (basename p.2.file).toLower kw)) = true
            · simp [h1, h2]
            · by_cases h3 : (["util", "helper"].any
                  (fun kw => strContains (basename p.2.file).toLower kw)) = true
              · simp [h1, h2, h3]
              · simp [h1, h2, h3]
    · rw [if_neg h0] at ho
      cases ho
  · exact sortByDesc_sorted (fun o : Orphan => o.confidence) _

/-- Witness for C10: an orphan on a `scripts/` path whose filename also
says "deprecated" gets confidence 0.6 (path rule outranks), and the
returned list is sorted descending. -/
theorem orphan_confidence_policy_witness :
    ((⟨"scripts/deprecated_tool.py", "scripts.deprecated_tool", 6/10⟩ :
        Orphan).confidence ∈ ([6/10, 7/10, 9/10, 95/100] : List ℚ)) ∧
      (find_orphans [⟨"scripts/deprecated_tool.py", some [], none⟩]
        [("scripts.deprecated_tool",
          ⟨"scripts/deprecated_tool.py", [], []⟩)]).Pairwise
        (fun x y => y.confidence ≤ x.confidence) :=
  ⟨((orphan_confidence_policy [⟨"scripts/deprecated_tool.py", some [], none⟩]
      [("scripts.deprecated_tool", ⟨"scripts/deprecated_tool.py", [], []⟩)]).1
      ⟨"scripts/deprecated_tool.py", "scripts.deprecated_tool", 6/10⟩
      (by with_unfolding_all decide)).2,
   (orphan_confidence_policy [⟨"scripts/deprecated_tool.py", some [], none⟩]
      [("scripts.deprecated_tool", ⟨"scripts/deprecated_tool.py", [], []⟩)]).2⟩

/-! ## Lemmas and theorems for tight coupling (C7) -/

theorem mem_tightlyCoupledFrom (D : List ((String × String) × DistInfo))
    (hnd : (D.map (fun e => e.1)).Nodup) (a b : String) :
    (∃ t ∈ tightlyCoupledFrom D, t.file_a = a ∧ t.file_b = b) ↔
      (a < b ∧ ∃ i, dictGet? D (a, b) = some i ∧ i.hops ≤ 2 ∧
        (dictGet? D (b, a)).isSome = true) := by
  constructor
  · rintro ⟨t, ht, hta, htb⟩
    obtain ⟨entry, hentry, hct⟩ := List.mem_filterMap.mp ht
    obtain ⟨⟨ea, eb⟩, ei⟩ := entry
    unfold couple at hct
    split_ifs at hct with h1 h2
    · have ht' := Option.some.inj hct
      subst ht'
      simp only at hta htb h2 h1
      subst hta
      subst htb
      exact ⟨h2, ei, dictGet?_eq_some_of_mem hnd hentry, h1.1, h1.2⟩
  · rintro ⟨hab, i, hget, hhops, hrev⟩
    have hmem : ((a, b), i) ∈ D := mem_of_dictGet? hget
    refine ⟨⟨a, b, true, i.hops⟩,
      List.mem_filterMap.mpr ⟨((a, b), i), hmem, ?_⟩, rfl, rfl⟩
    unfold couple
    rw [if_pos ⟨hhops, hrev⟩, if_pos hab]

theorem tightlyCoupledFrom_pairs_nodup (D : List ((String × String) × DistInfo))
    (hnd : (D.map (fun e => e.1)).Nodup) :
    ((tightlyCoupledFrom D).map (fun t => (t.file_a, t.file_b))).Nodup := by
  refine List.Nodup.sublist ?_ hnd
  refine filterMap_map_sublist (couple D) (fun t => (t.file_a, t.file_b))
    (fun e => e.1) D ?_
  intro e t he
  obtain ⟨⟨ea, eb⟩, ei⟩ := e
  unfold couple at he
  split_ifs at he with h1 h2
  have := Option.some.inj he
  subst this
  rfl

/-- C7 counterexample: on the 4-cycle, the pair (a, b) is reported
tightly coupled although the reverse distance b → a is 3 hops — the
code only requires the reverse key to EXIST, not to be ≤ 2, so the
claim's "forward path of at most 2 hops in both directions" is false. -/
theorem tightly_coupled_one_way_cex :
    (∃ t ∈ (calculate_dependency_distance cycle4).tightly_coupled,
      t.file_a = "a" ∧ t.file_b = "b") ∧
    ((dictGet? (calculate_dependency_distance cycle4).distances ("b", "a")).map
      (fun i => i.hops) = some 3) ∧
    ¬ ((3 : Nat) ≤ 2) := by
  refine ⟨?_, ?_, by decide⟩ <;> with_unfolding_all decide

/-- C7 (amended): a pair {a, b} with a < b is reported tightly coupled
exactly when the BFS distance from a to b is at most 2 and b merely
reaches a by a forward path of ANY length; each qualifying pair appears
once, and the result field keeps the first 10 such pairs. -/
theorem tightly_coupled_condition (mods : List (String × ModuleInfo))
    (hne : ¬ (mods = []))
    (hnd : ((allDistancesOf mods).map (fun e => e.1)).Nodup) (a b : String) :
    (calculate_dependency_distance mods).tightly_coupled =
      (tightlyCoupledFrom (allDistancesOf mods)).take 10 ∧
    ((∃ t ∈ tightlyCoupledFrom (allDistancesOf mods),
        t.file_a = a ∧ t.file_b = b) ↔
      (a < b ∧ ∃ i, dictGet? (allDistancesOf mods) (a, b) = some i ∧
        i.hops ≤ 2 ∧ (dictGet? (allDistancesOf mods) (b, a)).isSome = true)) ∧
    ((tightlyCoupledFrom (allDistancesOf mods)).map
      (fun t => (t.file_a, t.file_b))).Nodup := by
  refine ⟨?_, mem_tightlyCoupledFrom _ hnd a b,
    tightlyCoupledFrom_pairs_nodup _ hnd⟩
  simp only [calculate_dependency_distance, if_neg hne]

/-- Witness for C7 at the 4-cycle and the pair (a, b). -/
theorem tightly_coupled_condition_witness :
    (calculate_dependency_distance cycle4).tightly_coupled =
      (tightlyCoupledFrom (allDistancesOf cycle4)).take 10 ∧
    ((∃ t ∈ tightlyCoupledFrom (allDistancesOf cycle4),
        t.file_a = "a" ∧ t.file_b = "b") ↔
      ("a" < "b" ∧ ∃ i, dictGet? (allDistancesOf cycle4) ("a", "b") = some i ∧
        i.hops ≤ 2 ∧ (dictGet? (allDistancesOf cycle4) ("b", "a")).isSome = true)) ∧
    ((tightlyCoupledFrom (allDistancesOf cycle4)).map
      (fun t => (t.file_a, t.file_b))).Nodup :=
  tightly_coupled_condition cycle4 (by with_unfolding_all decide)
    (by with_unfolding_all decide) "a" "b"

/-! ## Lemmas and theorems for the leaf-name resolver (C4) -/

theorem dictGet?_dictUpd {α β : Type} [DecidableEq α] (l : List (α × β))
    (k k' : α) (f : β → β) :
    dictGet? (dictUpd l k f) k' =
      if k' = k then (dictGet? l k).map f else dictGet? l k' := by
  induction l with
  | nil => by_cases h : k' = k <;> simp [dictUpd, dictGet?, h]
  | cons p rest ih =>
      by_cases hpk : p.1 = k
      · by_cases hk' : k' = k
        · simp [dictUpd, dictGet?, hpk, hk']
        · have hthis : ¬ (p.1 = k') := fun h => hk' (h ▸ hpk ▸ rfl)
          have hkk' : ¬ (k = k') := fun h => hk' h.symm
          simp [dictUpd, dictGet?, hpk, hk', hthis, hkk']
      · by_cases hpk' : p.1 = k'
        · by_cases hk' : k' = k
          · exact absurd (hpk' ▸ hk') hpk
          · simp [dictUpd, dictGet?, hpk, hpk', hk']
        · simp [dictUpd, dictGet?, hpk, hpk', ih]

theorem dictGet?_append {α β : Type} [DecidableEq α] (l₁ l₂ : List (α × β))
    (k : α) :
    dictGet? (l₁ ++ l₂) k =
      match dictGet? l₁ k with
      | some v => some v
      | none => dictGet? l₂ k := by
  induction l₁ with
  | nil => simp [dictGet?]
  | cons p rest ih =>
      by_cases hpk : p.1 = k <;> simp [dictGet?, hpk, ih]

theorem dictGet?_dictAppend {α β : Type} [DecidableEq α] (l : List (α × List β))
    (k k' : α) (v : β) :
    dictGet? (dictAppend l k v) k' =
      if k' = k then some ((dictGet? l k).getD [] ++ [v]) else dictGet? l k' := by
  unfold dictAppend
  cases hg : dictGet? l k with
  | some vs =>
      simp only [hg, Option.isSome_some, if_pos, dictGet?_dictUpd]
      by_cases hk' : k' = k <;> simp [hk', hg]
  | none =>
      simp only [hg, Option.isSome_none, Bool.false_eq_true, if_false,
        dictGet?_append]
      by_cases hk' : k' = k
      · subst hk'
        simp [hg, dictGet?]
      · have hkk' : ¬ (k = k') := fun h => hk' h.symm
        simp [hk', hkk']
        cases dictGet? l k' <;> simp [dictGet?, hk', hkk']

theorem leafToModules_aux (mods : List (String × ModuleInfo))
    (acc : List (String × List String)) (key : String) :
    (dictGet? (mods.foldl (fun acc p => dictAppend acc (lastSegment p.1) p.1) acc)
        key).getD [] =
      (dictGet? acc key).getD [] ++
        (mods.map (fun p => p.1)).filter (fun n => decide (lastSegment n = key)) := by
  induction mods generalizing acc with
  | nil => simp
  | cons p rest ih =>
      simp only [List.foldl_cons, List.map_cons, List.filter_cons]
      rw [ih]
      by_cases hk : lastSegment p.1 = key
      · rw [dictGet?_dictAppend]
        simp [hk, List.append_assoc]
      · rw [dictGet?_dictAppend]
        have : ¬ (key = lastSegment p.1) := fun h => hk h.symm
        simp [this, hk]

theorem dictGet?_leafToModules (mods : List (String × ModuleInfo)) (key : String) :
    (dictGet? (leafToModules mods) key).getD [] =
      (mods.map (fun p => p.1)).filter (fun n => decide (lastSegment n = key)) := by
  unfold leafToModules
  rw [leafToModules_aux]
  simp [dictGet?]

/-- C4 counterexample: for the reference `a.b` the implementation matches
on the FIRST segment `a` (resolving to `c.a`), while the claim's
last-segment rule would resolve to `d.b`. -/
theorem leaf_first_segment_cex :
    (build_import_graph c4files none).internal_edges = [("m", "c.a")] ∧
    resolveLeaf (registerModules c4files none)
      (leafToModules (registerModules c4files none)) "m.py" "a.b" = some "c.a" ∧
    resolveLeafSpec (registerModules c4files none)
      (leafToModules (registerModules c4files none)) "m.py" "a.b" = some "d.b" ∧
    ¬ (("c.a" : String) = "d.b") := by
  refine ⟨?_, ?_, ?_, ?_⟩ <;> with_unfolding_all decide

/-- C4 (amended): for an absolute reference that the earlier strategies
leave unresolved, the resolver looks up the reference's FIRST path
segment among the last segments of the registered ids; a unique
candidate wins, several candidates prefer the first one whose file sits
in the importer's directory, else the first candidate. -/
theorem leaf_match_resolution (mods : List (String × ModuleInfo))
    (importerFile imp : String)
    (hfail : truthy (resolveParentMatch mods imp) = false) :
    (∀ n, n ∈ (dictGet? (leafToModules mods) (firstSegment imp)).getD [] ↔
        (n ∈ mods.map (fun p => p.1) ∧ lastSegment n = firstSegment imp)) ∧
    (∀ c, dictGet? (leafToModules mods) (firstSegment imp) = some [c] →
        resolveAbsolute mods (leafToModules mods) importerFile imp = some c) ∧
    (∀ cs c, dictGet? (leafToModules mods) (firstSegment imp) = some cs →
        2 ≤ cs.length →
        cs.find? (fun cand => decide (dirname (((dictGet? mods cand).map
          (fun i => i.file)).getD "") = dirname importerFile)) = some c →
        resolveAbsolute mods (leafToModules mods) importerFile imp = some c) ∧
    (∀ cs, dictGet? (leafToModules mods) (firstSegment imp) = some cs →
        2 ≤ cs.length →
        cs.find? (fun cand => decide (dirname (((dictGet? mods cand).map
          (fun i => i.file)).getD "") = dirname importerFile)) = none →
        resolveAbsolute mods (leafToModules mods) importerFile imp = cs.head?) := by
  refine ⟨?_, ?_, ?_, ?_⟩
  · intro n
    rw [dictGet?_leafToModules]
    simp [List.mem_filter]
  · intro c hget
    simp [resolveAbsolute, hfail, resolveLeaf, hget]
  · intro cs c hget hlen hfind
    have h1 : ¬ (cs.length = 1) := by omega
    have h2 : ¬ (cs = []) := by
      intro h
      rw [h] at hlen
      simp at hlen
    simp [resolveAbsolute, hfail, resolveLeaf, hget, h1, h2, hfind]
  · intro cs hget hlen hfind
    have h1 : ¬ (cs.length = 1) := by omega
    have h2 : ¬ (cs = []) := by
      intro h
      rw [h] at hlen
      simp at hlen
    cases cs with
    | nil => simp at hlen
    | cons c rest =>
        simp [resolveAbsolute, hfail, resolveLeaf, hget, h1, h2, hfind]

/-- Witness for C4: the reference `utils` with candidates `p.utils` and
`q.utils` resolves to the same-directory candidate `q.utils`. -/
theorem leaf_match_resolution_witness :
    resolveAbsolute (registerModules c4utils none)
      (leafToModules (registerModules c4utils none)) "q/m.py" "utils" =
      some "q.utils" :=
  (leaf_match_resolution (registerModules c4utils none) "q/m.py" "utils"
      (by with_unfolding_all decide)).2.2.1 ["p.utils", "q.utils"] "q.utils"
    (by with_unfolding_all decide) (by decide) (by with_unfolding_all decide)

/-! ## Lemmas and theorems for the freshness signal (C3) -/

theorem dictGet?_map_value {α β γ : Type} [DecidableEq α] (l : List (α × β))
    (g : β → γ) (k : α) :
    dictGet? (l.map (fun p => (p.1, g p.2))) k = (dictGet? l k).map g := by
  induction l with
  | nil => rfl
  | cons p rest ih => by_cases h : p.1 = k <;> simp [dictGet?, h, ih]

theorem dictUpd_forall {α β : Type} [DecidableEq α] {l : List (α × β)} {k : α}
    {f : β → β} (P : β → Prop) (hf : ∀ v, P v → P (f v))
    (h : ∀ p ∈ l, P p.2) : ∀ p ∈ dictUpd l k f, P p.2 := by
  induction l with
  | nil => simp [dictUpd]
  | cons p rest ih =>
      intro q hq
      by_cases hpk : p.1 = k
      · rw [dictUpd, if_pos hpk] at hq
        rcases List.mem_cons.mp hq with hq | hq
        · subst hq
          exact hf p.2 (h p (List.mem_cons_self _ _))
        · exact h q (List.mem_cons_of_mem _ hq)
      · rw [dictUpd, if_neg hpk] at hq
        rcases List.mem_cons.mp hq with hq | hq
        · subst hq
          exact h p (List.mem_cons_self _ _)
        · exact ih (fun r hr => h r (List.mem_cons_of_mem _ hr)) q hq

/-- The freshness field is untouched (`none`) throughout hotspot, risk
and call collection. -/
theorem hotspotStep_freshness_none (st : CollectState) (hs : Hotspot)
    (h : ∀ p ∈ st.files_data, p.2.freshness = none) :
    ∀ p ∈ (hotspotStep st hs).files_data, p.2.freshness = none := by
  unfold hotspotStep
  by_cases hfp : hs.file ≠ ""
  · simp only [if_pos hfp]
    refine dictUpd_forall (fun v : FileData => v.freshness = none)
      (fun v hv => hv) ?_
    by_cases hin : (dictGet? st.files_data hs.file).isSome
    · simpa [hin] using h
    · simp only [hin, if_false, Bool.false_eq_true]
      intro p hp
      rcases List.mem_append.mp hp with hp | hp
      · exact h p hp
      · rw [List.mem_singleton] at hp
        subst hp
        rfl
  · simpa [hfp] using h

theorem riskStep_freshness_none (st : CollectState) (r : RiskEntry)
    (h : ∀ p ∈ st.files_data, p.2.freshness = none) :
    ∀ p ∈ (riskStep st r).files_data, p.2.freshness = none := by
  unfold riskStep
  by_cases hfp : r.file = ""
  · simpa [hfp] using h
  · simp only [if_neg hfp]
    refine dictUpd_forall (fun v : FileData => v.freshness = none)
      (fun v hv => hv) ?_
    by_cases hin : (dictGet? st.files_data
        ((dictGet? st.path_map (normalize_path r.file)).getD r.file)).isSome
    · simpa [hin] using h
    · simp only [hin, if_false, Bool.false_eq_true]
      intro p hp
      rcases List.mem_append.mp hp with hp | hp
      · exact h p hp
      · rw [List.mem_singleton] at hp
        subst hp
        rfl

theorem callStep_freshness_none (st : CollectState) (mc : MostCalled)
    (h : ∀ p ∈ st.files_data, p.2.freshness = none) :
    ∀ p ∈ (callStep st mc).files_data, p.2.freshness = none := by
  unfold callStep
  by_cases hdot : (mc.function.splitOn ".").length > 1
  · simp only [if_pos hdot]
    cases hf : st.files_data.find? (fun p =>
        strContains p.1 (String.intercalate "."
          ((mc.function.splitOn ".").dropLast)) ||
        strContains p.2.norm_path (String.intercalate "."
          ((mc.function.splitOn ".").dropLast))) with
    | none => simpa using h
    | some q =>
        exact dictUpd_forall (fun v : FileData => v.freshness = none)
          (fun v hv => hv) h
  · simpa [hdot] using h

theorem collect_stage3_freshness_none (results : Results) :
    ∀ p ∈ (collectCalls results.most_called
        (collectRisk results.risk (collectHotspots results.hotspots))).files_data,
      p.2.freshness = none := by
  have h1 : ∀ p ∈ (collectHotspots results.hotspots).files_data,
      p.2.freshness = none := by
    unfold collectHotspots
    generalize hinit : ({ files_data := [], path_map := [] } : CollectState) = st0
    have hbase : ∀ p ∈ st0.files_data, p.2.freshness = none := by
      subst hinit
      simp
    clear hinit
    induction results.hotspots generalizing st0 with
    | nil => exact hbase
    | cons x rest ih =>
        exact ih (hotspotStep st0 x) (hotspotStep_freshness_none st0 x hbase)
  have h2 : ∀ p ∈ (collectRisk results.risk
      (collectHotspots results.hotspots)).files_data, p.2.freshness = none := by
    unfold collectRisk
    generalize hst : collectHotspots results.hotspots = st0 at h1
    clear hst
    induction results.risk generalizing st0 with
    | nil => exact h1
    | cons x rest ih => exact ih (riskStep st0 x) (riskStep_freshness_none st0 x h1)
  unfold collectCalls
  generalize hst : collectRisk results.risk (collectHotspots results.hotspots) = st0
    at h2
  clear hst
  induction results.most_called generalizing st0 with
  | nil => exact h2
  | cons x rest ih => exact ih (callStep st0 x) (callStep_freshness_none st0 x h2)

/-- Every freshness value assigned by the bucket loop is the mapped
weight of some bucket of the input. -/
theorem freshFileStep_prov (path_map : List (String × String)) (w : ℚ)
    (P : Option ℚ → Prop) (hw : P (some w)) (fs : List String)
    (fd : List (String × FileData)) (h : ∀ p ∈ fd, P p.2.freshness) :
    ∀ p ∈ (fs.foldl (freshFileStep path_map w) fd), P p.2.freshness := by
  induction fs generalizing fd with
  | nil => exact h
  | cons f rest ih =>
      apply ih
      unfold freshFileStep
      by_cases hin : (dictGet? fd
          ((dictGet? path_map (normalize_path f)).getD f)).isSome
      · simp only [if_pos hin]
        exact dictUpd_forall (fun v : FileData => P v.freshness) (fun v _ => hw) h
      · simpa [hin] using h

theorem collectFreshness_prov (fr : List (String × List String))
    (st : CollectState) (P : Option ℚ → Prop)
    (h : ∀ p ∈ st.files_data, P p.2.freshness) :
    ∀ p ∈ (collectFreshness fr st).files_data,
      P p.2.freshness ∨
        ∃ cat fs, (cat, fs) ∈ fr ∧ p.2.freshness = some (freshnessWeight cat) := by
  induction fr generalizing st P with
  | nil =>
      intro p hp
      exact Or.inl (h p hp)
  | cons x rest ih =>
      intro p hp
      have hstep : ∀ q ∈ (freshBucketStep st x).files_data,
          (fun o => P o ∨ o = some (freshnessWeight x.1)) q.2.freshness := by
        unfold freshBucketStep
        exact freshFileStep_prov st.path_map (freshnessWeight x.1)
          (fun o => P o ∨ o = some (freshnessWeight x.1))
          (Or.inr rfl) x.2 st.files_data (fun q hq => Or.inl (h q hq))
      have := ih (freshBucketStep st x)
        (fun o => P o ∨ o = some (freshnessWeight x.1)) hstep p hp
      rcases this with (hP | hEq) | ⟨cat, fs, hmem, heq⟩
      · exact Or.inl hP
      · exact Or.inr ⟨x.1, x.2, List.mem_cons_self _ _, hEq⟩
      · exact Or.inr ⟨cat, fs, List.mem_cons_of_mem _ hmem, heq⟩

/-- C3 counterexample: a file in the explicit `active` bucket carries the
mapped freshness value 0, not the claimed 1.0. -/
theorem freshness_active_cex :
    ((dictGet? (filesDataOf
      { hotspots := [⟨"a.py", 1⟩], risk := [], most_called := [],
        freshness := [("active", ["a.py"])], tested_modules := [] })
      "a.py").map (fun d => d.freshness) = some (some 0)) ∧
    ¬ ((0 : ℚ) = 1) := by
  constructor
  · with_unfolding_all decide
  · with_unfolding_all decide

/-- C3 (amended): the freshness value of a file with an explicit bucket
is the STALENESS weight {active: 0.0, aging: 0.3, stale: 0.6,
dormant: 1.0} of some bucket of the input (0 for unrecognised bucket
names), and a file with no assigned bucket enters the freshness signal
with the neutral default 0.5. -/
theorem freshness_signal_mapping (results : Results) (fp : String) (d : FileData)
    (h : dictGet? (filesDataOf results) fp = some d) :
    dictGet? (freshness_scores results) fp = some (d.freshness.getD (1/2)) ∧
    freshnessWeight "active" = 0 ∧ freshnessWeight "aging" = 3/10 ∧
    freshnessWeight "stale" = 6/10 ∧ freshnessWeight "dormant" = 1 ∧
    (∀ c, ¬ (c ∈ (["active", "aging", "stale", "dormant"] : List String)) →
      freshnessWeight c = 0) ∧
    (∀ w, d.freshness = some w →
      ∃ cat fs, (cat, fs) ∈ results.freshness ∧ w = freshnessWeight cat) := by
  refine ⟨?_, by with_unfolding_all decide, by with_unfolding_all decide,
    by with_unfolding_all decide, by with_unfolding_all decide, ?_, ?_⟩
  · unfold freshness_scores
    rw [dictGet?_map_value (filesDataOf results)
      (fun v : FileData => v.freshness.getD (1/2)) fp, h]
    rfl
  · intro c hc
    simp only [List.mem_cons, List.mem_singleton, not_or] at hc
    obtain ⟨h1, h2, h3, h4, -⟩ := hc
    simp [freshnessWeight, dictGet?, Ne.symm h1, Ne.symm h2, Ne.symm h3,
      Ne.symm h4]
  · intro w hw
    have hall := collectFreshness_prov results.freshness
      (collectCalls results.most_called
        (collectRisk results.risk (collectHotspots results.hotspots)))
      (fun o => o = none) (collect_stage3_freshness_none results)
    have hmem : (fp, d) ∈ (collectFreshness results.freshness
        (collectCalls results.most_called
          (collectRisk results.risk (collectHotspots results.hotspots)))).files_data :=
      mem_of_dictGet? h
    rcases hall (fp, d) hmem with hnone | ⟨cat, fs, hmemf, heq⟩
    · rw [hw] at hnone
      cases hnone
    · rw [hw] at heq
      exact ⟨cat, fs, hmemf, Option.some.inj heq⟩

/-- Witness for C3: in the concrete input of the counterexample, `a.py`'s
assigned weight 0 is the weight of the `active` bucket. -/
theorem freshness_signal_mapping_witness :
    dictGet? (freshness_scores
      { hotspots := [⟨"a.py", 1⟩], risk := [], most_called := [],
        freshness := [("active", ["a.py"])], tested_modules := [] }) "a.py" =
      some ((some (0 : ℚ)).getD (1/2)) :=
  (freshness_signal_mapping
    { hotspots := [⟨"a.py", 1⟩], risk := [], most_called := [],
      freshness := [("active", ["a.py"])], tested_modules := [] } "a.py"
    { cc := 1, git_risk := 0, churn := 0, hotfixes := 0, import_weight := 0,
      freshness := some 0, norm_path := "a.py" }
    (by with_unfolding_all decide)).1

/-! ## Lemmas and theorems for the composite formula (C2) and the
high-risk fallback (C1) -/

theorem mem_seenFold (t : List String) (c i r f : List (String × ℚ))
    (fd : List (String × FileData)) :
    ∀ (acc : List PriorityRec × List String) (q : PriorityRec),
      q ∈ (fd.foldl (seenStep t c i r f) acc).1 →
      q ∈ acc.1 ∨ ∃ fp d, (fp, d) ∈ fd ∧ q = scoreEntry t c i r f fp d := by
  induction fd with
  | nil =>
      intro acc q hq
      exact Or.inl hq
  | cons p rest ih =>
      intro acc q hq
      rcases ih (seenStep t c i r f acc p) q hq with hacc | ⟨fp, d, hmem, heq⟩
      · unfold seenStep at hacc
        by_cases hseen : p.2.norm_path ∈ acc.2
        · rw [if_pos hseen] at hacc
          exact Or.inl hacc
        · rw [if_neg hseen] at hacc
          rcases List.mem_append.mp hacc with hacc | hacc
          · exact Or.inl hacc
          · rw [List.mem_singleton] at hacc
            exact Or.inr ⟨p.1, p.2, List.mem_cons_self _ _, hacc⟩
      · exact Or.inr ⟨fp, d, List.mem_cons_of_mem _ hmem, heq⟩

theorem mem_priorityFilesOf (results : Results) (q : PriorityRec)
    (h : q ∈ priorityFilesOf results) :
    ∃ fp d, (fp, d) ∈ filesDataOf results ∧
      q = scoreEntry results.tested_modules (n_cc results) (n_imp results)
        (n_risk results) (n_fresh results) fp d := by
  unfold priorityFilesOf at h
  rcases mem_seenFold results.tested_modules (n_cc results) (n_imp results)
      (n_risk results) (n_fresh results) (filesDataOf results) ([], []) q h with
    hacc | hex
  · simp at hacc
  · exact hex

theorem mem_calculate_priority_scores (results : Results) (pf : PriorityOut)
    (h : pf ∈ calculate_priority_scores results) :
    ∃ q, q ∈ priorityFilesOf results ∧ pf = dropRaw q := by
  unfold calculate_priority_scores at h
  have h1 : pf ∈ sortByDesc (fun p => p.score)
      ((top20WithRiskOf results).map dropRaw) :=
    (List.take_sublist _ _).subset h
  rw [mem_sortByDesc] at h1
  obtain ⟨q, hq, hpf⟩ := List.mem_map.mp h1
  refine ⟨q, ?_, hpf.symm⟩
  simp only [top20WithRiskOf] at hq
  rcases List.mem_append.mp hq with hq | hq
  · exact (mem_sortByDesc _ _ q).mp ((List.take_sublist _ _).subset hq)
  · have hq2 := (List.mem_filter.mp hq).1
    have hq3 := (List.take_sublist _ _).subset hq2
    exact (mem_sortByDesc _ _ q).mp (List.mem_filter.mp hq3).1

/-- C2 counterexample: on `c2input` coverage data is present, yet
`a.py`'s returned score is 0.525 — the single implemented formula
0.25·CC + 0.20·Import + 0.30·Risk + 0.15·Freshness + 0.10·Untested —
while the claimed coverage-mode formula
0.30·CC + 0.20·Import + 0.20·Risk + 0.15·Freshness + 0.15·Untested
gives 0.625 at the very same normalised signal values. -/
theorem formula_mode_cex :
    ((calculate_priority_scores c2input).map (fun p => (p.file, p.score)) =
      [("b.py", 575/1000), ("a.py", 525/1000), ("c.py", 175/1000)]) ∧
    dictGet? (n_cc c2input) "a.py" = some 1 ∧
    dictGet? (n_imp c2input) "a.py" = some (1/2) ∧
    dictGet? (n_risk c2input) "a.py" = some 0 ∧
    dictGet? (n_fresh c2input) "a.py" = some (1/2) ∧
    ¬ (c2input.tested_modules = []) ∧
    ¬ (pathStem "a.py" ∈ c2input.tested_modules) ∧
    roundHalfEvenAt 3 (specScore5 1 (1/2) 0 (1/2) 1) = 625/1000 ∧
    ¬ ((525 : ℚ)/1000 = 625/1000) := by
  refine ⟨?_, ?_, ?_, ?_, ?_, ?_, ?_, ?_, ?_⟩ <;> with_unfolding_all decide

/-- C2 (amended): every record returned by `calculate_priority_scores`
is scored by the one implemented formula — 0.25·CC + 0.20·Import +
0.30·Risk + 0.15·Freshness + 0.10·Untested, rounded to 3 decimals —
with no coverage-dependent switch between weight sets. -/
theorem composite_single_formula (results : Results) (pf : PriorityOut)
    (h : pf ∈ calculate_priority_scores results) :
    ∃ fp d, (fp, d) ∈ filesDataOf results ∧ pf.file = fp ∧
      pf.score = roundHalfEvenAt 3
        (((dictGet? (n_cc results) fp).getD 0) * (25/100) +
         ((dictGet? (n_imp results) fp).getD 0) * (20/100) +
         ((dictGet? (n_risk results) fp).getD 0) * (30/100) +
         ((dictGet? (n_fresh results) fp).getD 0) * (15/100) +
         (if pathStem fp ∈ results.tested_modules then (0 : ℚ) else 1) *
           (10/100)) := by
  obtain ⟨q, hq, hpf⟩ := mem_calculate_priority_scores results pf h
  obtain ⟨fp, d, hmem, hsc⟩ := mem_priorityFilesOf results q hq
  subst hsc
  subst hpf
  exact ⟨fp, d, hmem, rfl, rfl⟩

/-- Witness for C2 at `c2input` and its top-scored record. -/
theorem composite_single_formula_witness :
    ∃ fp d, (fp, d) ∈ filesDataOf c2input ∧
      (⟨"b.py", 575/1000, [.risk 1, .untested]⟩ : PriorityOut).file = fp ∧
      (⟨"b.py", 575/1000, [.risk 1, .untested]⟩ : PriorityOut).score =
        roundHalfEvenAt 3
          (((dictGet? (n_cc c2input) fp).getD 0) * (25/100) +
           ((dictGet? (n_imp c2input) fp).getD 0) * (20/100) +
           ((dictGet? (n_risk c2input) fp).getD 0) * (30/100) +
           ((dictGet? (n_fresh c2input) fp).getD 0) * (15/100) +
           (if pathStem fp ∈ c2input.tested_modules then (0 : ℚ) else 1) *
             (10/100)) :=
  composite_single_formula c2input ⟨"b.py", 575/1000, [.risk 1, .untested]⟩
    (by with_unfolding_all decide)

theorem fallback_general (l : List PriorityRec)
    (hsorted : l.Pairwise (fun u v => v.score ≤ u.score)) :
    (sortByDesc (fun p : PriorityOut => p.score)
      ((l.take 20 ++
        ((l.filter (fun pf => decide (pf.raw_risk > 7/10))).take 3).filter
          (fun rf => decide (rf.file ∉ (l.take 20).map
            (fun pf => pf.file)))).map dropRaw)).take 20 =
      (l.take 20).map dropRaw := by
  have ht20sorted : (l.take 20).Pairwise (fun u v => v.score ≤ u.score) :=
    List.Pairwise.sublist (List.take_sublist 20 l) hsorted
  by_cases happ :
      ((l.filter (fun pf => decide (pf.raw_risk > 7/10))).take 3).filter
        (fun rf => decide (rf.file ∉ (l.take 20).map (fun pf => pf.file))) = []
  · rw [happ, List.append_nil, sortByDesc_eq_self]
    · apply List.take_of_length_le
      rw [List.length_map, List.length_take]
      omega
    · rw [List.pairwise_map]
      exact ht20sorted
  · obtain ⟨a, ha⟩ := List.exists_mem_of_ne_nil _ happ
    have hmeml : ∀ x, x ∈ ((l.filter (fun pf => decide (pf.raw_risk > 7/10))).take
        3).filter (fun rf => decide (rf.file ∉ (l.take 20).map
          (fun pf => pf.file))) →
        x ∈ l ∧ ¬ (x.file ∈ (l.take 20).map (fun pf => pf.file)) := by
      intro x hx
      refine ⟨(List.mem_filter.mp
        ((List.take_sublist 3 _).subset (List.mem_filter.mp hx).1)).1, ?_⟩
      have h2 := (List.mem_filter.mp hx).2
      simpa using h2
    have hlen20 : 20 ≤ l.length := by
      by_contra hlt
      push_neg at hlt
      have htk : l.take 20 = l := List.take_of_length_le (by omega)
      exact (hmeml a ha).2 (by
        rw [htk]
        exact List.mem_map.mpr ⟨a, (hmeml a ha).1, rfl⟩)
    have hcross : ∀ x ∈ ((l.filter (fun pf => decide (pf.raw_risk >
        7/10))).take 3).filter (fun rf => decide (rf.file ∉ (l.take 20).map
          (fun pf => pf.file))), ∀ y ∈ l.take 20, x.score ≤ y.score := by
      intro x hx y hy
      have hxl := (hmeml x hx).1
      have hxnot : x ∉ l.take 20 := fun hmem =>
        (hmeml x hx).2 (List.mem_map.mpr ⟨x, hmem, rfl⟩)
      have hxl' : x ∈ l.take 20 ++ l.drop 20 := by
        rw [List.take_append_drop]
        exact hxl
      have hxdrop : x ∈ l.drop 20 := by
        rcases List.mem_append.mp hxl' with h | h
        · exact absurd h hxnot
        · exact h
      have hsorted' : (l.take 20 ++ l.drop 20).Pairwise
          (fun u v => v.score ≤ u.score) := by
        rw [List.take_append_drop]
        exact hsorted
      exact (List.pairwise_append.mp hsorted').2.2 y hy x hxdrop
    rw [List.map_append, sortByDesc_append_low (fun p : PriorityOut => p.score)
      _ _ (List.pairwise_map.mpr ht20sorted) ?hle]
    case hle =>
      intro x' hx' y' hy'
      obtain ⟨x, hx, hx'eq⟩ := List.mem_map.mp hx'
      obtain ⟨y, hy, hy'eq⟩ := List.mem_map.mp hy'
      rw [← hx'eq, ← hy'eq]
      exact hcross x hx y hy
    have hlenmap : ((l.take 20).map dropRaw).length = 20 := by
      rw [List.length_map, List.length_take]
      omega
    rw [List.take_append_of_le_length (by omega), List.take_of_length_le (by omega)]

/-- For every input, the re-sorted fallback list truncated back to 20 is
just the top-20 of the composite ranking: the re-injection never
changes the returned list. -/
theorem fallback_noop (results : Results) :
    calculate_priority_scores results =
      ((sortedPriorityOf results).take 20).map dropRaw :=
  fallback_general (sortedPriorityOf results)
    (sortByDesc_sorted (fun p => p.score) (priorityFilesOf results))

set_option maxRecDepth 100000 in
/-- C1 (code bug): on the failing input `c1input`, `z.py` has raw git
risk 0.9 > 0.7 and ranks 21st by composite score; the fallback block
does append it after the top-20 — but the final `top_20.sort(...);
return top_20[:20]` cuts it again, so it is absent from the returned
list, contradicting the documented guarantee that high-risk files are
never silently hidden; in general the returned list is always exactly
the top-20 by composite score, so the re-injection is dead code. -/
theorem fallback_injection_dropped :
    (∃ pf ∈ sortedPriorityOf c1input, pf.file = "z.py" ∧ pf.raw_risk = 9/10) ∧
    (sortedPriorityOf c1input).length = 21 ∧
    ¬ ("z.py" ∈ ((sortedPriorityOf c1input).take 20).map (fun p => p.file)) ∧
    "z.py" ∈ (top20WithRiskOf c1input).map (fun p => p.file) ∧
    ¬ ("z.py" ∈ (calculate_priority_scores c1input).map (fun p => p.file)) ∧
    (∀ results : Results, calculate_priority_scores results =
      ((sortedPriorityOf results).take 20).map dropRaw) := by
  refine ⟨?_, ?_, ?_, ?_, ?_, fallback_noop⟩ <;> with_unfolding_all decide

end RepoXray
